import Mathlib

/-!
Shallow embedding of the playlist audio-streaming core of `hackfm.py`
(stereo variant) and `hackfm_mono.py` (mono variant).

Modelling conventions:
* Python floats are modelled by exact rationals (`ℚ`); the properties
  verified here are not sensitive to binary floating-point rounding.
* A WAV file is modelled as its canonical 44-byte header followed by a
  payload of 16-bit signed samples; the payload is a `List ℤ` and the byte
  cursor of an open file handle is kept explicitly (`posBytes`).
* Randomness (`random.choice`, `random.shuffle`) is modelled by oracle
  streams carried in the state (`picks`, `perms`): each call consumes one
  entry, and quantifying over the oracle ranges over exactly the outcomes
  the uniform primitives can produce.
* Filesystem and subprocess effects are modelled by data recorded per
  track: the probed WAV header info, the payload ffmpeg would produce, and
  ffmpeg's exit status.
-/

/-- Wrap an integer into signed 16-bit range, as numpy int16 arithmetic does. -/
def int16ofInt (n : ℤ) : ℤ := (n + 32768) % 65536 - 32768

/-- Absolute value computed in numpy int16 arithmetic: `np.abs` on an int16
array wraps, so `abs (-32768) = -32768`. -/
def int16abs (v : ℤ) : ℤ := int16ofInt |v|

/-- Python `int()` conversion of a rational (float): truncation toward zero. -/
def pyTrunc (q : ℚ) : ℤ := if 0 ≤ q then ⌊q⌋ else -⌊-q⌋

/-- Clip a rational into `[-32767, 32767]`, as `np.clip(x, -32767, 32767)`. -/
def clip16 (q : ℚ) : ℚ := max (-32767) (min q 32767)

/-- One sample of the work loop's gain stage: multiply by the gain, clip to
`[-32767, 32767]`, convert back to the integer sample type
(`hackfm.py` lines 1071-1073, `hackfm_mono.py` lines 212-216). -/
def gainTransform (gain : ℚ) (v : ℤ) : ℤ := pyTrunc (clip16 (gain * v))

/-- Zero-fill the remainder of an output buffer of length `n`
(`out[produced:] = 0`). -/
def padZeros (acc : List ℤ) (n : ℕ) : List ℤ := acc ++ List.replicate (n - acc.length) 0

/-- Samples at even positions of an interleaved stereo buffer (left channel,
column 0 of the `(-1, 2)` reshape in `hackfm.py` line 1069). -/
def evenIdx : List ℤ → List ℤ
  | [] => []
  | [a] => [a]
  | a :: _ :: rest => a :: evenIdx rest

/-- Samples at odd positions of an interleaved stereo buffer (right channel,
column 1 of the `(-1, 2)` reshape). -/
def oddIdx : List ℤ → List ℤ
  | [] => []
  | [_] => []
  | _ :: b :: rest => b :: oddIdx rest

/-- Raw content of one (possibly converted) WAV file as the program sees it:
the header fields read through the `wave` module (`none` when `wave.open`
raises, i.e. probe failure), and the 16-bit payload after the canonical
44-byte header. -/
structure WavData where
  info : Option (ℕ × ℕ × ℕ)  -- (framerate, nchannels, sampwidth) from `_get_wav_info`
  samples : List ℤ
  deriving DecidableEq, Repr

/-- One catalog entry plus the external-world data its processing depends on:
`name` is its path (used for extension checks), `orig` the file's own
content, `conv` the content ffmpeg would produce for it, and `ffmpegExit`
the exit status ffmpeg would return (`subprocess.call` in `_make_temp_wav`). -/
structure Track where
  name : String
  orig : WavData
  conv : WavData
  ffmpegExit : ℤ
  deriving DecidableEq, Repr

/-- Peak scan `_wav_max_abs` (`hackfm.py` lines 931-956): probe failure or a
sample width other than 2 yields 32767; otherwise fold the numpy int16
absolute value through a `>` test against an accumulator starting at 0.
Chunked reading in the source is a pure streaming optimisation: folding
sample by sample computes the same running maximum. -/
def wavMaxAbs (w : WavData) : ℤ :=
  match w.info with
  | none => 32767
  | some (_, _, sw) =>
      if sw = 2 then
        w.samples.foldl (fun acc v => let m := int16abs v; if m > acc then m else acc) 0
      else 32767

/-- Gain computation at track-open time (`open_current_file`,
`hackfm.py` lines 973-982): `1.0` when the scanned peak is 0, otherwise
`headroom * 32767 / peak`, clamped to at most `2.0`. -/
def computeGain (headroom : ℚ) (maxAbs : ℤ) : ℚ :=
  let g : ℚ := if maxAbs = 0 then 1 else headroom * 32767 / maxAbs
  if g > 2 then 2 else g

/-- Case-insensitive suffix test `name.lower().endswith(ext)`; `Char.toLower`
models `str.lower` on the ASCII range, which covers the fixed extension
list the program compares against. -/
def lowerEndsWith (name : String) (ext : String) : Bool :=
  ext.data.isSuffixOf (name.data.map Char.toLower)

/-- Tuple form `name.lower().endswith((e1, e2, ...))`. -/
def lowerEndsWithAny (name : String) (exts : List String) : Bool :=
  exts.any (lowerEndsWith name)

/-- Decision rule `_needs_conversion` of the stereo variant
(`hackfm.py` lines 901-911): non-WAV extension, or probed rate ≠ 44100, or
probed channel count ≠ 2 (probe failure reads as `None ≠ 44100`). -/
def needsConversionStereo (t : Track) : Bool :=
  if lowerEndsWithAny t.name [".mp3", ".flac", ".ogg"] then true
  else
    match t.orig.info with
    | none => true
    | some (sr, ch, _) => sr ≠ 44100 || ch ≠ 2

/-- Decision rule `_needs_conversion` of the mono variant
(`hackfm_mono.py` lines 87-97): channel count must be 1. -/
def needsConversionMono (t : Track) : Bool :=
  if lowerEndsWithAny t.name [".mp3", ".flac", ".ogg"] then true
  else
    match t.orig.info with
    | none => true
    | some (sr, ch, _) => sr ≠ 44100 || ch ≠ 1

/-- Resolve step of `open_current_file` (stereo): directly streamable files
are read as they are; others go through `_make_temp_wav`, whose non-zero
ffmpeg exit raises `RuntimeError` (`hackfm.py` lines 913-929, 958-967). -/
def resolveStereo (t : Track) : Except String WavData :=
  if needsConversionStereo t then
    if t.ffmpegExit ≠ 0 then .error ("ffmpeg failed to convert " ++ t.name)
    else .ok t.conv
  else .ok t.orig

/-- Resolve step of `open_current_file` (mono variant). -/
def resolveMono (t : Track) : Except String WavData :=
  if needsConversionMono t then
    if t.ffmpegExit ≠ 0 then .error ("ffmpeg failed to convert " ++ t.name)
    else .ok t.conv
  else .ok t.orig

/-- An open binary file handle on a canonical WAV: the payload samples and the
absolute byte cursor (44 = end of header, where `open_current_file` seeks). -/
structure OpenFile where
  samples : List ℤ
  posBytes : ℕ
  deriving DecidableEq, Repr

/-- Read `nBytes` bytes from the handle as int16 samples
(`self.current_file.read(...)` followed by `np.frombuffer`): returns the
samples obtained and the advanced handle. Reads past the end return fewer
samples, possibly none. Reachable cursors are even and at least 44, so a
read is always whole samples. -/
def fileRead (f : OpenFile) (nBytes : ℕ) : List ℤ × OpenFile :=
  let start := (f.posBytes - 44) / 2
  let got := (f.samples.drop start).take (nBytes / 2)
  (got, { f with posBytes := f.posBytes + 2 * got.length })

/-- Python list indexing `l[i]`: negative indices address from the end;
anything else out of range raises `IndexError`. -/
def pyIndex (l : List Track) (i : ℤ) : Except String Track :=
  if h : 0 ≤ i ∧ i < l.length then
    .ok (l.get ⟨i.toNat, by omega⟩)
  else if h2 : -(l.length : ℤ) ≤ i ∧ i < 0 then
    .ok (l.get ⟨(l.length + i).toNat, by omega⟩)
  else .error "IndexError"

/-- Play-order policy of the controller (`PlayMode` in `hackfm.py`). -/
inductive PlayMode where
  | SEQUENTIAL
  | SHUFFLE
  | REPEAT_ONE
  deriving DecidableEq, Repr

/-- Argument accepted by `set_play_mode`: either a `PlayMode` value or a raw
key string that is looked up in `mode_map`. -/
inductive ModeArg where
  | mode (m : PlayMode)
  | key (s : String)
  deriving DecidableEq, Repr

/-- State of the stereo `playlist_file_source` block, plus the oracle streams
that stand in for the `random` module. `playedIndices` is `some` exactly
when the object was constructed with `shuffle=True` (only that branch of
`__init__` creates `_played_indices`). -/
structure PlaySrc where
  fileList : List Track
  repeatFlag : Bool
  shuffle : Bool
  chunkSize : ℕ
  targetHeadroom : ℚ
  playedIndices : Option (Finset ℕ)
  currentFileIdx : ℤ
  currentFile : Option OpenFile
  currentGain : ℚ
  picks : List ℕ
  perms : List (List ℕ)
  deriving DecidableEq

/-- Shared controller state (`PlaybackController` fields; `last_update_time`
is a wall-clock sample, modelled as a rational timestamp). -/
structure Controller where
  playMode : PlayMode
  paused : Bool
  seekOffset : ℚ
  currentFilePos : ℚ
  lastUpdateTime : ℚ
  deriving DecidableEq, Repr

/-- The whole interactive system: the source block and, when attached
(`self.playlist_file_source_0.controller = self.controller`), the playback
controller. -/
structure System where
  src : PlaySrc
  ctrl : Option Controller
  deriving DecidableEq

/-- Reapply a permutation oracle entry to a list, modelling `random.shuffle`:
an entry that is a permutation of `range n` reorders the list by it; any
other entry is ignored (the oracle only ranges over real shuffles). -/
def applyPerm (p : List ℕ) (l : List Track) : List Track :=
  if p.Perm (List.range l.length) then
    p.filterMap (fun i => l.get? i)
  else l

/-- Pop the next `random.choice` oracle entry. -/
def popPick (s : PlaySrc) : ℕ × PlaySrc :=
  match s.picks with
  | [] => (0, s)
  | p :: rest => (p, { s with picks := rest })

/-- Pop the next `random.shuffle` oracle entry. -/
def popPerm (s : PlaySrc) : List ℕ × PlaySrc :=
  match s.perms with
  | [] => ([], s)
  | p :: rest => (p, { s with perms := rest })

/-- The list comprehension `[i for i in range(len(self.file_list)) if i not in
self._played_indices]` (`hackfm.py` line 1011). -/
def availableIndices (n : ℕ) (played : Finset ℕ) : List ℕ :=
  (List.range n).filter (fun i => i ∉ played)

/-- Track-open step `open_current_file` of the stereo variant
(`hackfm.py` lines 958-984): resolve the current index through the format
normalizer (ffmpeg on demand), open the resulting file just past the
44-byte header, and recompute the gain from its peak scan. The temp-file
cleanup is a pure filesystem effect and leaves the modelled state alone. -/
def openCurrentFile (s : PlaySrc) : Except String PlaySrc := do
  let t ← pyIndex s.fileList s.currentFileIdx
  let wav ← resolveStereo t
  let maxAbs := wavMaxAbs wav
  let gain := computeGain s.targetHeadroom maxAbs
  .ok { s with currentFile := some { samples := wav.samples, posBytes := 44 },
               currentGain := gain }

/-- Track advance `next_file` of the stereo variant (`hackfm.py` lines
994-1024). Shuffle mode consults `_played_indices` (an `AttributeError`
when the source was not constructed with `shuffle=True`), clears it after a
full pass (reshuffling under `repeat`, draining otherwise), then picks
uniformly among the unplayed indices. Sequential mode increments the
cursor, wrapping under `repeat` and draining otherwise. -/
def nextFile (s : PlaySrc) : Except String PlaySrc := do
  if s.shuffle then
    match s.playedIndices with
    | none => .error "AttributeError: _played_indices"
    | some played =>
      let n := s.fileList.length
      if played.card ≥ n then
        if s.repeatFlag then
          let (perm, s1) := popPerm s
          let s2 := { s1 with fileList := applyPerm perm s1.fileList,
                              playedIndices := some (∅ : Finset ℕ) }
          let avail := availableIndices s2.fileList.length ∅
          let (p, s3) := popPick s2
          let idx := avail.getD (p % avail.length) 0
          let s4 := { s3 with currentFileIdx := (idx : ℤ),
                              playedIndices := some (insert idx (∅ : Finset ℕ)) }
          openCurrentFile s4
        else
          .ok { s with playedIndices := some (∅ : Finset ℕ), currentFile := none }
      else
        let avail := availableIndices n played
        let (p, s1) := popPick s
        let idx := avail.getD (p % avail.length) 0
        let s2 := { s1 with currentFileIdx := (idx : ℤ),
                            playedIndices := some (insert idx played) }
        openCurrentFile s2
  else
    let idx := s.currentFileIdx + 1
    if idx ≥ (s.fileList.length : ℤ) then
      if s.repeatFlag then
        openCurrentFile { s with currentFileIdx := 0 }
      else
        .ok { s with currentFileIdx := idx, currentFile := none }
    else
      openCurrentFile { s with currentFileIdx := idx }

/-- Pause flag as `work` observes it: `hasattr(self, 'controller') and
self.controller and self.controller.paused` (`hackfm.py` line 1041). -/
def pausedObserved (sys : System) : Bool :=
  match sys.ctrl with
  | some c => c.paused
  | none => false

/-- Replace the open file handle after a read advanced its cursor. -/
def withCurFile (sys : System) (f : OpenFile) : System :=
  { sys with src := { sys.src with currentFile := some f } }

/-- Run `next_file` on the source inside the system. -/
def nextFileSys (sys : System) : Except String System := do
  let src ← nextFile sys.src
  .ok { sys with src := src }

/-- Work loop of the stereo `playlist_file_source.work` (`hackfm.py` lines
1026-1088), one constructor case per loop iteration, with explicit fuel
standing for the source's unbounded `while`. The result carries the final
system, both output buffers (every return path zero-fills the remainder
first), and the produced count the call returns. -/
def workLoop (fuel : ℕ) (sys : System) (n : ℕ) (accL accR : List ℤ) :
    Except String (System × List ℤ × List ℤ × ℕ) :=
  match fuel with
  | 0 => .error "fuel exhausted"
  | fuel + 1 =>
    if accL.length < n then
      match sys.src.currentFile with
      | none => .ok (sys, padZeros accL n, padZeros accR n, accL.length)
      | some f =>
        if pausedObserved sys then
          .ok (sys, padZeros accL n, padZeros accR n, accL.length)
        else
          let toReadFrames := min (n - accL.length) sys.src.chunkSize
          let rd := fileRead f (toReadFrames * 2 * 2)
          let sys1 := withCurFile sys rd.2
          if rd.1.length = 0 then
            match nextFileSys sys1 with
            | .error e => .error e
            | .ok sys2 =>
              match sys2.src.currentFile with
              | none => .ok (sys2, padZeros accL n, padZeros accR n, accL.length)
              | some _ => workLoop fuel sys2 n accL accR
          else
            let samples := if rd.1.length % 2 ≠ 0 then rd.1.dropLast else rd.1
            let frameCount := samples.length / 2
            let ints := samples.map (gainTransform sys1.src.currentGain)
            let accL2 := accL ++ evenIdx ints
            let accR2 := accR ++ oddIdx ints
            if frameCount < toReadFrames then
              match nextFileSys sys1 with
              | .error e => .error e
              | .ok sys2 =>
                match sys2.src.currentFile with
                | none => .ok (sys2, padZeros accL2 n, padZeros accR2 n, accL2.length)
                | some _ => workLoop fuel sys2 n accL2 accR2
            else workLoop fuel sys1 n accL2 accR2
    else .ok (sys, accL, accR, accL.length)

/-- One call of the stereo `work` with output buffers of length `n`
(`n_out = min(len(out_l), len(out_r))`). -/
def workStereo (fuel : ℕ) (sys : System) (n : ℕ) :
    Except String (System × List ℤ × List ℤ × ℕ) :=
  workLoop fuel sys n [] []

/-- State of the mono `playlist_file_source` block (`hackfm_mono.py`): no
shuffle support and no attached controller. -/
structure MonoSrc where
  fileList : List Track
  repeatFlag : Bool
  chunkSize : ℕ
  targetHeadroom : ℚ
  currentFileIdx : ℤ
  currentFile : Option OpenFile
  currentGain : ℚ
  deriving DecidableEq

/-- Track-open step `open_current_file` of the mono variant
(`hackfm_mono.py` lines 144-170). -/
def openCurrentFileMono (s : MonoSrc) : Except String MonoSrc := do
  let t ← pyIndex s.fileList s.currentFileIdx
  let wav ← resolveMono t
  let gain := computeGain s.targetHeadroom (wavMaxAbs wav)
  .ok { s with currentFile := some { samples := wav.samples, posBytes := 44 },
               currentGain := gain }

/-- Track advance `next_file` of the mono variant (`hackfm_mono.py` lines
180-189): sequential only. -/
def nextFileMono (s : MonoSrc) : Except String MonoSrc :=
  let idx := s.currentFileIdx + 1
  if idx ≥ (s.fileList.length : ℤ) then
    if s.repeatFlag then
      openCurrentFileMono { s with currentFileIdx := 0 }
    else
      .ok { s with currentFileIdx := idx, currentFile := none }
  else
    openCurrentFileMono { s with currentFileIdx := idx }

/-- Work loop of the mono `playlist_file_source.work` (`hackfm_mono.py` lines
191-226): one int16 sample per frame, no pause check, no channel split. -/
def workLoopMono (fuel : ℕ) (s : MonoSrc) (n : ℕ) (acc : List ℤ) :
    Except String (MonoSrc × List ℤ × ℕ) :=
  match fuel with
  | 0 => .error "fuel exhausted"
  | fuel + 1 =>
    if acc.length < n then
      match s.currentFile with
      | none => .ok (s, padZeros acc n, acc.length)
      | some f =>
        let toRead := min (n - acc.length) s.chunkSize
        let rd := fileRead f (toRead * 2)
        let s1 := { s with currentFile := some rd.2 }
        if rd.1.length = 0 then
          match nextFileMono s1 with
          | .error e => .error e
          | .ok s2 =>
            match s2.currentFile with
            | none => .ok (s2, padZeros acc n, acc.length)
            | some _ => workLoopMono fuel s2 n acc
        else
          let ints := rd.1.map (gainTransform s1.currentGain)
          let acc2 := acc ++ ints
          if rd.1.length < toRead then
            match nextFileMono s1 with
            | .error e => .error e
            | .ok s2 =>
              match s2.currentFile with
              | none => .ok (s2, padZeros acc2 n, acc2.length)
              | some _ => workLoopMono fuel s2 n acc2
          else workLoopMono fuel s1 n acc2
    else .ok (s, acc, acc.length)

/-- One call of the mono `work` with an output buffer of length `n`. -/
def workMono (fuel : ℕ) (s : MonoSrc) (n : ℕ) :
    Except String (MonoSrc × List ℤ × ℕ) :=
  workLoopMono fuel s n []

/-- Mode decoding of `set_play_mode` (`hackfm.py` lines 56-68): a `PlayMode`
value is taken as is; a key string is looked up in `mode_map`, unknown keys
leaving the mode unchanged. -/
def decodeModeArg (arg : ModeArg) (cur : PlayMode) : PlayMode :=
  match arg with
  | .mode m => m
  | .key s =>
      if s = "1" then .SEQUENTIAL
      else if s = "2" then .SHUFFLE
      else if s = "3" then .REPEAT_ONE
      else cur

/-- Controller operation `set_play_mode` (`hackfm.py` lines 56-75): updates
`play_mode` and then recomputes the source's `shuffle` flag from it. It
touches nothing else: no reshuffle, no played-set reset. -/
def setPlayMode (arg : ModeArg) (sys : System) : System :=
  match sys.ctrl with
  | none => sys
  | some c =>
      let pm := decodeModeArg arg c.playMode
      { src := { sys.src with shuffle := pm = PlayMode.SHUFFLE },
        ctrl := some { c with playMode := pm } }

/-- Controller operation `toggle_pause` (`hackfm.py` lines 77-80). -/
def togglePause (sys : System) : System :=
  match sys.ctrl with
  | none => sys
  | some c => { sys with ctrl := some { c with paused := !c.paused } }

/-- Controller operation `seek_forward` (`hackfm.py` lines 82-84). -/
def seekForward (seconds : ℚ) (sys : System) : System :=
  match sys.ctrl with
  | none => sys
  | some c => { sys with ctrl := some { c with seekOffset := c.seekOffset + seconds } }

/-- Controller operation `seek_backward` (`hackfm.py` lines 86-90): subtract,
then clamp the accumulator at 0. -/
def seekBackward (seconds : ℚ) (sys : System) : System :=
  match sys.ctrl with
  | none => sys
  | some c =>
      let off := c.seekOffset - seconds
      let off := if off < 0 then 0 else off
      { sys with ctrl := some { c with seekOffset := off } }

/-- Controller operation `next_track` (`hackfm.py` lines 92-97). -/
def nextTrack (sys : System) : Except String System :=
  match sys.ctrl with
  | none => .ok sys
  | some c => do
      let src ← nextFile sys.src
      .ok { src := src, ctrl := some { c with seekOffset := 0, currentFilePos := 0 } }

/-- Controller operation `previous_track` (`hackfm.py` lines 99-112): past 3
seconds of elapsed playback it only zeroes `seek_offset` and
`current_file_pos`; otherwise it moves the cursor back two positions
(wrapping below -1 to `len - 2`) and advances through `next_file`. -/
def previousTrack (sys : System) : Except String System :=
  match sys.ctrl with
  | none => .ok sys
  | some c =>
      if sys.src.fileList.length > 0 then
        if c.currentFilePos > 3 then
          .ok { sys with ctrl := some { c with seekOffset := 0, currentFilePos := 0 } }
        else do
          let idx := sys.src.currentFileIdx - 2
          let idx := if idx < -1 then (sys.src.fileList.length : ℤ) - 2 else idx
          let src ← nextFile { sys.src with currentFileIdx := idx }
          .ok { src := src, ctrl := some { c with seekOffset := 0, currentFilePos := 0 } }
      else .ok sys

/-- Controller operation `update_position` (`hackfm.py` lines 114-138), with
the wall clock passed in as `now`: advance `current_file_pos` while not
paused, then apply any pending seek larger than 0.1 s to the open file's
byte cursor at 44100 Hz * 2 channels * 2 bytes, clamping targets before
byte 44 up to 44 and zeroing the accumulator. -/
def updatePosition (now : ℚ) (sys : System) : System :=
  match sys.ctrl with
  | none => sys
  | some c =>
      let c1 := if !c.paused then
          { c with currentFilePos := c.currentFilePos + (now - c.lastUpdateTime),
                   lastUpdateTime := now }
        else c
      match sys.src.currentFile with
      | some f =>
          if |c1.seekOffset| > 1/10 then
            let bytesPerSecond : ℚ := 44100 * 2 * 2
            let target : ℤ := (f.posBytes : ℤ) + pyTrunc (c1.seekOffset * bytesPerSecond)
            let f2 : OpenFile :=
              if target ≥ 44 then { f with posBytes := target.toNat }
              else { f with posBytes := 44 }
            { src := { sys.src with currentFile := some f2 },
              ctrl := some { c1 with seekOffset := 0 } }
          else { sys with ctrl := some c1 }
      | none => { sys with ctrl := some c1 }

/-- A directory subtree as `os.walk` sees it: the files directly inside, and
the subdirectories in the order the OS lists them. -/
inductive DirTree where
  | node (files : List String) (dirs : List (String × DirTree))

mutual
/-- Top-down `os.walk`: the root's own `(path, files)` entry, then each
subtree in listing order. -/
def walkTree (root : String) : DirTree → List (String × List String)
  | .node files dirs => (root, files) :: walkDirs root dirs

/-- Walk a list of subdirectories in order. -/
def walkDirs (root : String) : List (String × DirTree) → List (String × List String)
  | [] => []
  | (d, t) :: rest => walkTree (root ++ "/" ++ d) t ++ walkDirs root rest
end

/-- Extension allow-list test `file.lower().endswith(('.wav', '.mp3',
'.flac', '.ogg'))` (`hackfm.py` lines 883-887). -/
def allowedExt (f : String) : Bool :=
  lowerEndsWithAny f [".wav", ".mp3", ".flac", ".ogg"]

/-- The `os.path.join(root, file)` shape on POSIX paths. -/
def joinPath (root f : String) : String := root ++ "/" ++ f

/-- Body of `_find_audio_files` over a precomputed walk: per directory, sort
the file names (`files = sorted(files)`), keep the allow-listed ones, and
join them onto the directory path, in walk order. -/
def findAudioFilesWalk (walk : List (String × List String)) : List String :=
  walk.flatMap
    (fun rf => (((List.insertionSort (· ≤ ·) rf.2).filter (fun f => allowedExt f)).map
      (joinPath rf.1)))

/-- Catalog enumeration `_find_audio_files` (`hackfm.py` lines 880-889) on a
modelled directory tree. -/
def findAudioFiles (root : String) (t : DirTree) : List String :=
  findAudioFilesWalk (walkTree root t)

/-- The catalog-loading step of `__init__` (`hackfm.py` lines 855-857):
`RuntimeError` when no audio file was found. -/
def initFileList (root : String) (t : DirTree) : Except String (List String) :=
  let l := findAudioFiles root t
  if l = [] then .error ("No audio files found in " ++ root) else .ok l

/-- The payload `open_current_file` ends up streaming for a track when its
resolution succeeds: the ffmpeg output when conversion is needed, the
original file otherwise. -/
def openedWavStereo (t : Track) : WavData :=
  if needsConversionStereo t then t.conv else t.orig

/-- Mono analogue of `openedWavStereo`. -/
def openedWavMono (t : Track) : WavData :=
  if needsConversionMono t then t.conv else t.orig

/-- Peak of a file as the claim wording reads it: the maximum absolute sample
magnitude over all samples, in unbounded integer arithmetic. Modelled from
the spec for comparison against the code's scan `wavMaxAbs`. -/
def claimedPeak (w : WavData) : ℤ :=
  w.samples.foldl (fun acc v => max acc |v|) 0

deriving instance DecidableEq for Except

/-- Concrete already-conforming stereo WAV used by several witnesses. -/
def wavFix : WavData := { info := some (44100, 2, 2), samples := [7, 8, 9, 10] }

/-- Concrete track wrapping `wavFix`. -/
def trackFix : Track := { name := "a.wav", orig := wavFix, conv := ⟨none, []⟩, ffmpegExit := 0 }

/-- Concrete source state: one open conforming track, cursor at byte 1000. -/
def srcFix : PlaySrc :=
  { fileList := [trackFix], repeatFlag := true, shuffle := false, chunkSize := 4096,
    targetHeadroom := 98/100, playedIndices := none, currentFileIdx := 0,
    currentFile := some { samples := [7, 8, 9, 10], posBytes := 1000 }, currentGain := 1,
    picks := [], perms := [] }

/-- Concrete controller state: 5 s elapsed, 6 s of pending seek. -/
def ctrlFix : Controller :=
  { playMode := .SEQUENTIAL, paused := false, seekOffset := 6, currentFilePos := 5,
    lastUpdateTime := 0 }

/-- Concrete system for the `previous_track` evaluation. -/
def sysFix : System := { src := srcFix, ctrl := some ctrlFix }

/-- Concrete shuffle-constructed source with one index already played. -/
def srcFixShuffle : PlaySrc := { srcFix with shuffle := true, playedIndices := some {0} }

/-- Concrete system for the `set_play_mode` evaluation. -/
def sysFixShuffle : System := { src := srcFixShuffle, ctrl := some ctrlFix }

/-- Concrete track whose conversion fails: an mp3 with ffmpeg exiting 1. -/
def trackBad : Track := { name := "b.mp3", orig := ⟨none, []⟩, conv := ⟨none, []⟩, ffmpegExit := 1 }

/-- Iterate `next_file` `k` times, collecting the current track index chosen by
each advance (as a natural number; shuffle advances always set a
nonnegative index). -/
def nextFileTrace : ℕ → PlaySrc → Except String (PlaySrc × List ℕ)
  | 0, s => .ok (s, [])
  | k + 1, s => do
      let s1 ← nextFile s
      let (s2, tr) ← nextFileTrace k s1
      .ok (s2, s1.currentFileIdx.toNat :: tr)

/-- Concrete directory tree exercising sorting, filtering and recursion. -/
def treeFix : DirTree :=
  .node ["B.WAV", "a.mp3", "x.txt", "C.ogg"] [("sub", .node ["z.flac"] [])]

/-- Concrete shuffle-constructed source at the start of a pass. -/
def srcShufFix : PlaySrc := { srcFix with shuffle := true, playedIndices := some ∅ }

/-- Well-formedness of a stereo source state under `repeat=True`: a non-empty
catalog whose every track opens successfully with at least one full stereo
frame of payload, a played set present when shuffling, a cursor no lower
than -1 (the lowest `previous_track` can leave it), and a positive chunk
size. Every state the engine reaches from its constructor satisfies this. -/
structure GoodSrc (s : PlaySrc) : Prop where
  nonempty : 0 < s.fileList.length
  tracks : ∀ t ∈ s.fileList,
    (needsConversionStereo t = true → t.ffmpegExit = 0) ∧
      2 ≤ (openedWavStereo t).samples.length
  playedSome : s.shuffle = true → s.playedIndices.isSome = true
  idxGe : -1 ≤ s.currentFileIdx
  rep : s.repeatFlag = true
  chunkPos : 0 < s.chunkSize

/-- Mono analogue of `GoodSrc`: each opened payload holds at least one
sample (one mono frame). -/
structure GoodMono (s : MonoSrc) : Prop where
  nonempty : 0 < s.fileList.length
  tracks : ∀ t ∈ s.fileList,
    (needsConversionMono t = true → t.ffmpegExit = 0) ∧
      1 ≤ (openedWavMono t).samples.length
  idxGe : -1 ≤ s.currentFileIdx
  rep : s.repeatFlag = true
  chunkPos : 0 < s.chunkSize

/-- Concrete paused system with an open, unexhausted track under repeat. -/
def sysPausedFix : System := { src := srcFix, ctrl := some { ctrlFix with paused := true } }

/-- Concrete mono source with one open conforming track. -/
def monoFix : MonoSrc :=
  { fileList := [{ name := "m.wav", orig := { info := some (44100, 1, 2), samples := [3, 4] },
                   conv := ⟨none, []⟩, ffmpegExit := 0 }],
    repeatFlag := true, chunkSize := 4096, targetHeadroom := 98/100,
    currentFileIdx := 0, currentFile := some { samples := [3, 4], posBytes := 44 },
    currentGain := 1 }

lemma int16ofInt_bounds (n : ℤ) : -32768 ≤ int16ofInt n ∧ int16ofInt n ≤ 32767 := by
  unfold int16ofInt
  have h1 : 0 ≤ (n + 32768) % 65536 := Int.emod_nonneg _ (by norm_num)
  have h2 : (n + 32768) % 65536 < 65536 := Int.emod_lt_of_pos _ (by norm_num)
  omega

lemma maxScan_bounds (l : List ℤ) : ∀ acc : ℤ, 0 ≤ acc → acc ≤ 32767 →
    0 ≤ l.foldl (fun acc v => let m := int16abs v; if m > acc then m else acc) acc ∧
    l.foldl (fun acc v => let m := int16abs v; if m > acc then m else acc) acc ≤ 32767 := by
  induction l with
  | nil => intro acc h0 h1; simpa using ⟨h0, h1⟩
  | cons v rest ih =>
      intro acc h0 h1
      simp only [List.foldl_cons]
      have hb := int16ofInt_bounds |v|
      refine ih _ ?_ ?_ <;> (simp only [int16abs] at *; split <;> omega)

lemma wavMaxAbs_bounds (w : WavData) : 0 ≤ wavMaxAbs w ∧ wavMaxAbs w ≤ 32767 := by
  unfold wavMaxAbs
  match w.info with
  | none => norm_num
  | some (sr, ch, sw) =>
      by_cases hsw : sw = 2
      · simpa [hsw] using maxScan_bounds w.samples 0 (by norm_num) (by norm_num)
      · simp [hsw]

lemma computeGain_pos_le_two (maxAbs : ℤ) (h0 : 0 ≤ maxAbs) :
    0 < computeGain (98/100) maxAbs ∧ computeGain (98/100) maxAbs ≤ 2 := by
  unfold computeGain
  by_cases hz : maxAbs = 0
  · norm_num [hz]
  · have hpos : (0 : ℚ) < (maxAbs : ℚ) := by
      have : 1 ≤ maxAbs := by omega
      exact_mod_cast lt_of_lt_of_le zero_lt_one (by exact_mod_cast this)
    have hg : (0 : ℚ) < (98 : ℚ)/100 * 32767 / (maxAbs : ℚ) := by positivity
    simp only [hz, if_false]
    split
    · norm_num
    · constructor
      · exact hg
      · linarith [not_lt.mp (by assumption : ¬ (98 : ℚ)/100 * 32767 / (maxAbs : ℚ) > 2)]

/-- C2 (amended): at the default headroom 0.98 the gain computed at open time
is in `(0, 2]`; a scanned peak of 0 gives gain exactly 1; probe failure or a
non-16-bit sample width makes the scan report full scale 32767 (gain 0.98);
otherwise the gain is `min(0.98 * 32767 / peak, 2)` where `peak` is the
code's scan result: the running maximum of the numpy int16 absolute value,
so samples equal to -32768 (whose wrapped absolute value is negative) never
raise the peak. -/
theorem open_gain_bounds_amended (w : WavData) :
    0 < computeGain (98/100) (wavMaxAbs w) ∧
    computeGain (98/100) (wavMaxAbs w) ≤ 2 ∧
    (wavMaxAbs w = 0 → computeGain (98/100) (wavMaxAbs w) = 1) ∧
    (w.info = none → wavMaxAbs w = 32767) ∧
    (∀ sr ch sw, w.info = some (sr, ch, sw) → sw ≠ 2 → wavMaxAbs w = 32767) ∧
    (wavMaxAbs w ≠ 0 →
      computeGain (98/100) (wavMaxAbs w) =
        min ((98 : ℚ)/100 * 32767 / ((wavMaxAbs w : ℤ) : ℚ)) 2) := by
  obtain ⟨hb0, hb1⟩ := wavMaxAbs_bounds w
  obtain ⟨hg0, hg1⟩ := computeGain_pos_le_two (wavMaxAbs w) hb0
  refine ⟨hg0, hg1, ?_, ?_, ?_, ?_⟩
  · intro hz; simp [computeGain, hz]
  · intro hn; simp [wavMaxAbs, hn]
  · intro sr ch sw hi hsw; simp [wavMaxAbs, hi, hsw]
  · intro hz
    unfold computeGain
    simp only [hz, if_false]
    rcases le_or_lt ((98 : ℚ)/100 * 32767 / ((wavMaxAbs w : ℤ) : ℚ)) 2 with h | h
    · rw [if_neg (not_lt.mpr h), min_eq_left h]
    · rw [if_pos h, min_eq_right h.le]

/-- C2 witness: the amended theorem applied at a concrete one-sample file. -/
theorem open_gain_bounds_amended_witness :
    0 < computeGain (98/100) (wavMaxAbs ⟨some (44100, 2, 2), [100]⟩) ∧
    computeGain (98/100) (wavMaxAbs ⟨some (44100, 2, 2), [100]⟩) ≤ 2 ∧
    (wavMaxAbs ⟨some (44100, 2, 2), [100]⟩ = 0 →
      computeGain (98/100) (wavMaxAbs ⟨some (44100, 2, 2), [100]⟩) = 1) ∧
    ((⟨some (44100, 2, 2), [100]⟩ : WavData).info = none →
      wavMaxAbs ⟨some (44100, 2, 2), [100]⟩ = 32767) ∧
    (∀ sr ch sw, (⟨some (44100, 2, 2), [100]⟩ : WavData).info = some (sr, ch, sw) →
      sw ≠ 2 → wavMaxAbs ⟨some (44100, 2, 2), [100]⟩ = 32767) ∧
    (wavMaxAbs ⟨some (44100, 2, 2), [100]⟩ ≠ 0 →
      computeGain (98/100) (wavMaxAbs ⟨some (44100, 2, 2), [100]⟩) =
        min ((98 : ℚ)/100 * 32767 / ((wavMaxAbs ⟨some (44100, 2, 2), [100]⟩ : ℤ) : ℚ)) 2) :=
  open_gain_bounds_amended ⟨some (44100, 2, 2), [100]⟩

/-- C2 counterexample: on a file whose only sample is -32768 the code's gain
is 1.0, while the claim's formula (peak = true maximum absolute magnitude,
here 32768) demands `min(0.98 * 32767 / 32768, 2) ≠ 1`. -/
theorem open_gain_formula_counterexample :
    computeGain (98/100) (wavMaxAbs ⟨some (44100, 2, 2), [-32768]⟩) = 1 ∧
    claimedPeak ⟨some (44100, 2, 2), [-32768]⟩ = 32768 ∧
    min ((98 : ℚ)/100 * 32767 / ((claimedPeak ⟨some (44100, 2, 2), [-32768]⟩ : ℤ) : ℚ)) 2 ≠ 1 := by
  refine ⟨by decide, by decide, ?_⟩
  norm_num [claimedPeak]

/-- C4 (evaluation of the code at the failing input): with 5 s elapsed
(> 3 s), `previous_track` only zeroes `seek_offset` and `current_file_pos`;
the open file's byte cursor stays at 1000, so the track is NOT restarted
from its beginning, contradicting the code's own comment and the claim. -/
theorem previous_track_restart_keeps_cursor :
    previousTrack sysFix =
      .ok { src := srcFix, ctrl := some { ctrlFix with seekOffset := 0, currentFilePos := 0 } } ∧
    srcFix.currentFile.map OpenFile.posBytes = some 1000 ∧
    (1000 : ℕ) ≠ 44 := by
  refine ⟨rfl, by decide, by decide⟩

lemma workStereo_paused (sys : System) (c : Controller) (fuel n : ℕ)
    (hc : sys.ctrl = some c) (hp : c.paused = true) (hf : 1 ≤ fuel) :
    workStereo fuel sys n = .ok (sys, List.replicate n 0, List.replicate n 0, 0) := by
  obtain ⟨m, rfl⟩ : ∃ m, fuel = m + 1 := ⟨fuel - 1, by omega⟩
  have hpo : pausedObserved sys = true := by simp [pausedObserved, hc, hp]
  unfold workStereo
  rw [workLoop]
  by_cases hn : 0 < n
  · simp only [List.length_nil, hn, if_true]
    cases hcf : sys.src.currentFile with
    | none => simp [padZeros]
    | some f => simp [hpo, padZeros]
  · have hz : n = 0 := by omega
    subst hz
    simp [padZeros]

lemma updatePosition_preserves_pos_of_paused (sys : System) (c : Controller) (now : ℚ)
    (hc : sys.ctrl = some c) (hp : c.paused = true) :
    ∃ c2, (updatePosition now sys).ctrl = some c2 ∧ c2.currentFilePos = c.currentFilePos := by
  obtain ⟨pm, pa, so, cfp, lut⟩ := c
  simp only at hp
  subst hp
  unfold updatePosition
  rw [hc]
  simp only [Bool.not_true, Bool.false_eq_true, if_false]
  cases sys.src.currentFile with
  | none => exact ⟨_, rfl, rfl⟩
  | some f =>
      dsimp only
      split
      · exact ⟨_, rfl, rfl⟩
      · exact ⟨_, rfl, rfl⟩

/-- C5: while the controller reports paused, `update_position` leaves the
elapsed-seconds counter unchanged, and every stereo `work` call fills both
whole output buffers with zeros (and produces count 0, state untouched). -/
theorem paused_freezes_position_and_silences_output
    (sys : System) (c : Controller) (now : ℚ) (fuel n : ℕ)
    (hc : sys.ctrl = some c) (hp : c.paused = true) (hf : 1 ≤ fuel) :
    (∃ c2, (updatePosition now sys).ctrl = some c2 ∧ c2.currentFilePos = c.currentFilePos) ∧
    workStereo fuel sys n = .ok (sys, List.replicate n 0, List.replicate n 0, 0) :=
  ⟨updatePosition_preserves_pos_of_paused sys c now hc hp,
   workStereo_paused sys c fuel n hc hp hf⟩

/-- C5 witness: the theorem applied to a concrete paused system. -/
theorem paused_freezes_position_and_silences_output_witness :
    (∃ c2, (updatePosition 9 { src := srcFix, ctrl := some { ctrlFix with paused := true } }).ctrl =
        some c2 ∧ c2.currentFilePos = Controller.currentFilePos { ctrlFix with paused := true }) ∧
    workStereo 5 { src := srcFix, ctrl := some { ctrlFix with paused := true } } 3 =
      .ok ({ src := srcFix, ctrl := some { ctrlFix with paused := true } },
           List.replicate 3 0, List.replicate 3 0, 0) :=
  paused_freezes_position_and_silences_output
    { src := srcFix, ctrl := some { ctrlFix with paused := true } }
    { ctrlFix with paused := true } 9 5 3 rfl rfl (by decide)

/-- C10: a stereo `work` call that observes the paused flag changes no
playback state at all -- the byte cursor, track index, played set and gain
are exactly as before -- and only writes zeros into both buffers. -/
theorem work_paused_no_state_change
    (sys : System) (c : Controller) (fuel n : ℕ)
    (hc : sys.ctrl = some c) (hp : c.paused = true) (hf : 1 ≤ fuel) :
    ∃ sys2 outL outR cnt, workStereo fuel sys n = .ok (sys2, outL, outR, cnt) ∧
      sys2 = sys ∧
      sys2.src.currentFile = sys.src.currentFile ∧
      sys2.src.currentFileIdx = sys.src.currentFileIdx ∧
      sys2.src.playedIndices = sys.src.playedIndices ∧
      sys2.src.currentGain = sys.src.currentGain ∧
      outL = List.replicate n 0 ∧ outR = List.replicate n 0 :=
  ⟨sys, List.replicate n 0, List.replicate n 0, 0,
    workStereo_paused sys c fuel n hc hp hf, rfl, rfl, rfl, rfl, rfl, rfl, rfl⟩

/-- C10 witness: the theorem applied to a concrete paused system. -/
theorem work_paused_no_state_change_witness :
    ∃ sys2 outL outR cnt,
      workStereo 7 { src := srcFix, ctrl := some { ctrlFix with paused := true } } 4 =
        .ok (sys2, outL, outR, cnt) ∧
      sys2 = { src := srcFix, ctrl := some { ctrlFix with paused := true } } ∧
      sys2.src.currentFile = srcFix.currentFile ∧
      sys2.src.currentFileIdx = srcFix.currentFileIdx ∧
      sys2.src.playedIndices = srcFix.playedIndices ∧
      sys2.src.currentGain = srcFix.currentGain ∧
      outL = List.replicate 4 0 ∧ outR = List.replicate 4 0 :=
  work_paused_no_state_change
    { src := srcFix, ctrl := some { ctrlFix with paused := true } }
    { ctrlFix with paused := true } 7 4 rfl rfl (by decide)

lemma seekBackward_floor (sys : System) (c : Controller) (sec : ℚ)
    (hc : sys.ctrl = some c) :
    (seekBackward sec sys).ctrl = some { c with seekOffset := max 0 (c.seekOffset - sec) } := by
  unfold seekBackward
  rw [hc]
  dsimp only
  split
  · rw [max_eq_left (le_of_lt (by assumption))]
  · rw [max_eq_right (not_lt.mp (by assumption))]

/-- C6: `seek_backward` clamps the pending-seek accumulator at the floor 0 (so
it can never drive the position negative), and when `update_position`
applies a pending seek the resulting byte cursor is exactly the target
clamped up to the 44-byte header offset -- never before byte 44 and never an
error; without an applicable seek the cursor is untouched. -/
theorem seek_never_before_header
    (sys : System) (c : Controller) (f : OpenFile) (sec now : ℚ)
    (hc : sys.ctrl = some c) (hf : sys.src.currentFile = some f) :
    ((seekBackward sec sys).ctrl = some { c with seekOffset := max 0 (c.seekOffset - sec) } ∧
      ∀ c2, (seekBackward sec sys).ctrl = some c2 → 0 ≤ c2.seekOffset) ∧
    (|c.seekOffset| > 1/10 →
      ∃ f2, (updatePosition now sys).src.currentFile = some f2 ∧
        44 ≤ f2.posBytes ∧
        f2.posBytes = (max 44 ((f.posBytes : ℤ) + pyTrunc (c.seekOffset * (44100 * 2 * 2)))).toNat ∧
        f2.samples = f.samples) ∧
    (¬ |c.seekOffset| > 1/10 → (updatePosition now sys).src.currentFile = some f) := by
  have hsb := seekBackward_floor sys c sec hc
  refine ⟨⟨hsb, ?_⟩, ?_, ?_⟩
  · intro c2 h2
    rw [hsb] at h2
    injection h2 with h2
    rw [← h2]
    exact le_max_left 0 _
  · intro hs
    unfold updatePosition
    rw [hc, hf]
    dsimp only
    have hso : (if !c.paused then
        { c with currentFilePos := c.currentFilePos + (now - c.lastUpdateTime),
                 lastUpdateTime := now } else c).seekOffset = c.seekOffset := by
      split <;> rfl
    rw [hso, if_pos hs]
    dsimp only
    split
    · rename_i ht
      refine ⟨_, rfl, ?_, ?_, rfl⟩
      · dsimp only
        omega
      · dsimp only
        rw [max_eq_right ht]
    · rename_i ht
      refine ⟨_, rfl, ?_, ?_, rfl⟩
      · dsimp only
        omega
      · dsimp only
        rw [max_eq_left (by omega)]
        decide
  · intro hs
    unfold updatePosition
    rw [hc, hf]
    dsimp only
    have hso : (if !c.paused then
        { c with currentFilePos := c.currentFilePos + (now - c.lastUpdateTime),
                 lastUpdateTime := now } else c).seekOffset = c.seekOffset := by
      split <;> rfl
    rw [hso, if_neg hs]
    exact hf

/-- C6 witness: the theorem applied to the concrete system `sysFix`. -/
theorem seek_never_before_header_witness :
    ((seekBackward 10 sysFix).ctrl =
        some { ctrlFix with seekOffset := max 0 (ctrlFix.seekOffset - 10) } ∧
      ∀ c2, (seekBackward 10 sysFix).ctrl = some c2 → 0 ≤ c2.seekOffset) ∧
    (|ctrlFix.seekOffset| > 1/10 →
      ∃ f2, (updatePosition 9 sysFix).src.currentFile = some f2 ∧
        44 ≤ f2.posBytes ∧
        f2.posBytes = (max 44 (((1000 : ℕ) : ℤ) +
          pyTrunc (ctrlFix.seekOffset * (44100 * 2 * 2)))).toNat ∧
        f2.samples = [7, 8, 9, 10]) ∧
    (¬ |ctrlFix.seekOffset| > 1/10 →
      (updatePosition 9 sysFix).src.currentFile = some ⟨[7, 8, 9, 10], 1000⟩) :=
  seek_never_before_header sysFix ctrlFix ⟨[7, 8, 9, 10], 1000⟩ 10 9 rfl rfl

/-- C7 (amended): `set_play_mode` switches the policy among the three modes
(unknown key strings leave it unchanged) and recomputes the source's
`shuffle` flag from the new mode; it does NOT reshuffle the play order and
does NOT reset the played-index set -- both are left exactly as they were,
so in particular switching out of Shuffle also leaves the order unchanged. -/
theorem set_play_mode_amended (arg : ModeArg) (sys : System) (c : Controller)
    (hc : sys.ctrl = some c) :
    (setPlayMode arg sys).src.fileList = sys.src.fileList ∧
    (setPlayMode arg sys).src.playedIndices = sys.src.playedIndices ∧
    (setPlayMode arg sys).src.currentFileIdx = sys.src.currentFileIdx ∧
    (setPlayMode arg sys).ctrl = some { c with playMode := decodeModeArg arg c.playMode } ∧
    (setPlayMode arg sys).src.shuffle = decide (decodeModeArg arg c.playMode = PlayMode.SHUFFLE) := by
  unfold setPlayMode
  rw [hc]
  exact ⟨rfl, rfl, rfl, rfl, rfl⟩

/-- C7 witness: the amended theorem applied at the key argument "2" on the
concrete system `sysFixShuffle`. -/
theorem set_play_mode_amended_witness :
    (setPlayMode (.key "2") sysFixShuffle).src.fileList = sysFixShuffle.src.fileList ∧
    (setPlayMode (.key "2") sysFixShuffle).src.playedIndices = sysFixShuffle.src.playedIndices ∧
    (setPlayMode (.key "2") sysFixShuffle).src.currentFileIdx = sysFixShuffle.src.currentFileIdx ∧
    (setPlayMode (.key "2") sysFixShuffle).ctrl =
      some { ctrlFix with playMode := decodeModeArg (.key "2") ctrlFix.playMode } ∧
    (setPlayMode (.key "2") sysFixShuffle).src.shuffle =
      decide (decodeModeArg (.key "2") ctrlFix.playMode = PlayMode.SHUFFLE) :=
  set_play_mode_amended (.key "2") sysFixShuffle ctrlFix rfl

/-- C7 counterexample: switching into Shuffle on a source whose played set is
`{0}` leaves the played set at `{0}` -- it is not reset to the empty set as
the claim demands -- and the play order is also left untouched. -/
theorem set_play_mode_no_reset_counterexample :
    (setPlayMode (.key "2") sysFixShuffle).ctrl.map Controller.playMode = some PlayMode.SHUFFLE ∧
    (setPlayMode (.key "2") sysFixShuffle).src.playedIndices = some {0} ∧
    (setPlayMode (.key "2") sysFixShuffle).src.playedIndices ≠ some (∅ : Finset ℕ) ∧
    (setPlayMode (.key "2") sysFixShuffle).src.fileList = sysFixShuffle.src.fileList := by
  refine ⟨rfl, rfl, by decide, rfl⟩

/-- C8: when a track needs conversion and ffmpeg exits non-zero, the resolve
step fails with the transcode error; `open_current_file` propagates it, and
so does a sequential `next_file` advancing onto such a track -- no fallback
stream is substituted and the track is not skipped. -/
theorem transcode_failure_halts (t : Track)
    (hconv : needsConversionStereo t = true) (hexit : t.ffmpegExit ≠ 0) :
    resolveStereo t = .error ("ffmpeg failed to convert " ++ t.name) ∧
    (∀ s : PlaySrc, pyIndex s.fileList s.currentFileIdx = .ok t →
      openCurrentFile s = .error ("ffmpeg failed to convert " ++ t.name)) ∧
    (∀ s : PlaySrc, s.shuffle = false →
      s.currentFileIdx + 1 < (s.fileList.length : ℤ) →
      pyIndex s.fileList (s.currentFileIdx + 1) = .ok t →
      nextFile s = .error ("ffmpeg failed to convert " ++ t.name)) := by
  have hres : resolveStereo t = .error ("ffmpeg failed to convert " ++ t.name) := by
    simp [resolveStereo, hconv, hexit]
  have hopen : ∀ s : PlaySrc, pyIndex s.fileList s.currentFileIdx = .ok t →
      openCurrentFile s = .error ("ffmpeg failed to convert " ++ t.name) := by
    intro s hpy
    unfold openCurrentFile
    rw [hpy]
    show (resolveStereo t).bind _ = _
    rw [hres]
    rfl
  refine ⟨hres, hopen, ?_⟩
  intro s hsh hlt hpy
  unfold nextFile
  rw [hsh]
  simp only [Bool.false_eq_true, if_false]
  rw [if_neg (not_le.mpr hlt)]
  exact hopen { s with currentFileIdx := s.currentFileIdx + 1, shuffle := false } hpy

/-- C8 witness: the theorem applied to the concrete failing track `trackBad`. -/
theorem transcode_failure_halts_witness :
    resolveStereo trackBad = .error ("ffmpeg failed to convert " ++ trackBad.name) ∧
    (∀ s : PlaySrc, pyIndex s.fileList s.currentFileIdx = .ok trackBad →
      openCurrentFile s = .error ("ffmpeg failed to convert " ++ trackBad.name)) ∧
    (∀ s : PlaySrc, s.shuffle = false →
      s.currentFileIdx + 1 < (s.fileList.length : ℤ) →
      pyIndex s.fileList (s.currentFileIdx + 1) = .ok trackBad →
      nextFile s = .error ("ffmpeg failed to convert " ++ trackBad.name)) :=
  transcode_failure_halts trackBad (by decide) (by decide)

/-- C9: catalog enumeration walks the tree recursively (the walk of a node is
its own sorted, allow-list-filtered files followed by the walks of its
subdirectories in order), keeps exactly the files whose names end
case-insensitively in .wav/.mp3/.flac/.ogg, emits each directory's block in
lexicographic filename order, and `__init__` fails with the empty-catalog
error exactly when nothing matched. -/
theorem enumerate_recursive_sorted_filtered (root : String) (t : DirTree) :
    (∀ x, x ∈ findAudioFiles root t ↔
      ∃ rt fs, (rt, fs) ∈ walkTree root t ∧
        ∃ f, f ∈ fs ∧ allowedExt f = true ∧ x = joinPath rt f) ∧
    (∀ files dirs,
      findAudioFiles root (.node files dirs) =
        ((List.insertionSort (· ≤ ·) files).filter (fun f => allowedExt f)).map (joinPath root) ++
          findAudioFilesWalk (walkDirs root dirs)) ∧
    (∀ files : List String,
      List.Sorted (· ≤ ·) ((List.insertionSort (· ≤ ·) files).filter (fun f => allowedExt f))) ∧
    (∀ d t2 rest,
      findAudioFilesWalk (walkDirs root ((d, t2) :: rest)) =
        findAudioFiles (root ++ "/" ++ d) t2 ++ findAudioFilesWalk (walkDirs root rest)) ∧
    (findAudioFiles root t = [] →
      initFileList root t = .error ("No audio files found in " ++ root)) ∧
    (findAudioFiles root t ≠ [] → initFileList root t = .ok (findAudioFiles root t)) := by
  refine ⟨?_, ?_, ?_, ?_, ?_, ?_⟩
  · intro x
    unfold findAudioFiles findAudioFilesWalk
    simp only [List.mem_flatMap, List.mem_map, List.mem_filter, List.mem_insertionSort,
      Prod.exists]
    constructor
    · rintro ⟨rt, fs, hmem, f, ⟨hfs, hext⟩, rfl⟩
      exact ⟨rt, fs, hmem, f, hfs, hext, rfl⟩
    · rintro ⟨rt, fs, hmem, f, hfs, hext, rfl⟩
      exact ⟨rt, fs, hmem, f, ⟨hfs, hext⟩, rfl⟩
  · intro files dirs
    simp [findAudioFiles, findAudioFilesWalk, walkTree]
  · intro files
    exact List.Sorted.filter _ (List.sorted_insertionSort _ files)
  · intro d t2 rest
    simp [findAudioFiles, findAudioFilesWalk, walkDirs]
  · intro h
    simp [initFileList, h]
  · intro h
    simp [initFileList, h]

/-- C9 witness: the theorem applied to a concrete root and tree. -/
theorem enumerate_recursive_sorted_filtered_witness :
    (∀ x, x ∈ findAudioFiles "root" treeFix ↔
      ∃ rt fs, (rt, fs) ∈ walkTree "root" treeFix ∧
        ∃ f, f ∈ fs ∧ allowedExt f = true ∧ x = joinPath rt f) ∧
    (∀ files dirs,
      findAudioFiles "root" (.node files dirs) =
        ((List.insertionSort (· ≤ ·) files).filter (fun f => allowedExt f)).map
            (joinPath "root") ++
          findAudioFilesWalk (walkDirs "root" dirs)) ∧
    (∀ files : List String,
      List.Sorted (· ≤ ·) ((List.insertionSort (· ≤ ·) files).filter (fun f => allowedExt f))) ∧
    (∀ d t2 rest,
      findAudioFilesWalk (walkDirs "root" ((d, t2) :: rest)) =
        findAudioFiles ("root" ++ "/" ++ d) t2 ++ findAudioFilesWalk (walkDirs "root" rest)) ∧
    (findAudioFiles "root" treeFix = [] →
      initFileList "root" treeFix = .error ("No audio files found in " ++ "root")) ∧
    (findAudioFiles "root" treeFix ≠ [] →
      initFileList "root" treeFix = .ok (findAudioFiles "root" treeFix)) :=
  enumerate_recursive_sorted_filtered "root" treeFix

lemma pyIndex_natCast (l : List Track) (c : ℕ) (h : c < l.length) :
    pyIndex l (c : ℤ) = .ok (l.get ⟨c, h⟩) := by
  unfold pyIndex
  rw [dif_pos ⟨Int.natCast_nonneg c, by exact_mod_cast h⟩]
  rfl

lemma resolveStereo_ok (t : Track)
    (hok : needsConversionStereo t = true → t.ffmpegExit = 0) :
    resolveStereo t = .ok (openedWavStereo t) := by
  unfold resolveStereo openedWavStereo
  cases hnc : needsConversionStereo t with
  | true => simp [hok hnc]
  | false => simp

lemma openCurrentFile_ok (s : PlaySrc) (t : Track)
    (hpy : pyIndex s.fileList s.currentFileIdx = .ok t)
    (hok : needsConversionStereo t = true → t.ffmpegExit = 0) :
    openCurrentFile s =
      .ok { s with currentFile := some ⟨(openedWavStereo t).samples, 44⟩,
                   currentGain := computeGain s.targetHeadroom (wavMaxAbs (openedWavStereo t)) } := by
  unfold openCurrentFile
  rw [hpy]
  show (resolveStereo t).bind _ = _
  rw [resolveStereo_ok t hok]
  rfl

lemma availableIndices_nodup (n : ℕ) (played : Finset ℕ) :
    (availableIndices n played).Nodup :=
  (List.nodup_range n).filter _

lemma mem_availableIndices (n : ℕ) (played : Finset ℕ) (i : ℕ) :
    i ∈ availableIndices n played ↔ i < n ∧ i ∉ played := by
  simp [availableIndices]

lemma availableIndices_ne_nil (n : ℕ) (played : Finset ℕ)
    (h : played.card < n) : availableIndices n played ≠ [] := by
  have hns : ¬ Finset.range n ⊆ played := by
    intro hsub
    have := Finset.card_le_card hsub
    rw [Finset.card_range] at this
    omega
  obtain ⟨i, hir, hip⟩ := Finset.not_subset.mp hns
  exact List.ne_nil_of_mem ((mem_availableIndices n played i).mpr
    ⟨Finset.mem_range.mp hir, hip⟩)

lemma popPick_fields (s : PlaySrc) :
    (popPick s).2.fileList = s.fileList ∧
    (popPick s).2.shuffle = s.shuffle ∧
    (popPick s).2.repeatFlag = s.repeatFlag ∧
    (popPick s).2.chunkSize = s.chunkSize ∧
    (popPick s).2.targetHeadroom = s.targetHeadroom ∧
    (popPick s).2.playedIndices = s.playedIndices ∧
    (popPick s).2.currentFile = s.currentFile ∧
    (popPick s).2.currentFileIdx = s.currentFileIdx := by
  unfold popPick
  cases s.picks <;> exact ⟨rfl, rfl, rfl, rfl, rfl, rfl, rfl, rfl⟩

lemma popPerm_fields (s : PlaySrc) :
    (popPerm s).2.fileList = s.fileList ∧
    (popPerm s).2.shuffle = s.shuffle ∧
    (popPerm s).2.repeatFlag = s.repeatFlag ∧
    (popPerm s).2.chunkSize = s.chunkSize ∧
    (popPerm s).2.targetHeadroom = s.targetHeadroom ∧
    (popPerm s).2.playedIndices = s.playedIndices ∧
    (popPerm s).2.currentFile = s.currentFile ∧
    (popPerm s).2.currentFileIdx = s.currentFileIdx ∧
    (popPerm s).2.picks = s.picks := by
  unfold popPerm
  cases s.perms <;> exact ⟨rfl, rfl, rfl, rfl, rfl, rfl, rfl, rfl, rfl⟩

lemma filterMap_getQ_length (l : List Track) (p : List ℕ)
    (h : ∀ i ∈ p, i < l.length) :
    (p.filterMap (fun i => l.get? i)).length = p.length := by
  induction p with
  | nil => rfl
  | cons i rest ih =>
      have hi : i < l.length := h i (List.mem_cons_self i rest)
      rw [List.filterMap_cons, List.get?_eq_get hi]
      simp only [List.length_cons]
      rw [ih (fun j hj => h j (List.mem_cons_of_mem i hj))]

lemma applyPerm_length (p : List ℕ) (l : List Track) :
    (applyPerm p l).length = l.length := by
  unfold applyPerm
  split
  · rename_i hperm
    have hmem : ∀ i ∈ p, i < l.length := by
      intro i hip
      have : i ∈ List.range l.length := hperm.mem_iff.mp hip
      exact List.mem_range.mp this
    rw [filterMap_getQ_length l p hmem, hperm.length_eq, List.length_range]
  · rfl

lemma applyPerm_mem (p : List ℕ) (l : List Track) (x : Track)
    (hx : x ∈ applyPerm p l) : x ∈ l := by
  unfold applyPerm at hx
  split at hx
  · obtain ⟨i, _, hg⟩ := List.mem_filterMap.mp hx
    exact List.get?_mem hg
  · exact hx

lemma nextFile_shuffle_step (s : PlaySrc) (played : Finset ℕ)
    (hsh : s.shuffle = true) (hpl : s.playedIndices = some played)
    (hcard : played.card < s.fileList.length)
    (hopen : ∀ t ∈ s.fileList, needsConversionStereo t = true → t.ffmpegExit = 0) :
    ∃ s2 c t, nextFile s = .ok s2 ∧
      c < s.fileList.length ∧ c ∉ played ∧ t ∈ s.fileList ∧
      s2.currentFileIdx = (c : ℤ) ∧
      s2.playedIndices = some (insert c played) ∧
      s2.fileList = s.fileList ∧
      s2.shuffle = s.shuffle ∧
      s2.repeatFlag = s.repeatFlag ∧
      s2.chunkSize = s.chunkSize ∧
      s2.targetHeadroom = s.targetHeadroom ∧
      s2.picks = (popPick s).2.picks ∧
      s2.perms = s.perms ∧
      s2.currentFile = some ⟨(openedWavStereo t).samples, 44⟩ := by
  have hne : availableIndices s.fileList.length played ≠ [] :=
    availableIndices_ne_nil _ played hcard
  have hlen : 0 < (availableIndices s.fileList.length played).length :=
    List.length_pos.mpr hne
  have hidx : (popPick s).1 % (availableIndices s.fileList.length played).length <
      (availableIndices s.fileList.length played).length := Nat.mod_lt _ hlen
  set c := (availableIndices s.fileList.length played).getD
    ((popPick s).1 % (availableIndices s.fileList.length played).length) 0 with hcdef
  have hcm : c ∈ availableIndices s.fileList.length played := by
    rw [hcdef, List.getD_eq_get _ _ hidx]
    exact List.get_mem _ _ _
  obtain ⟨hclt, hcnp⟩ := (mem_availableIndices _ played c).mp hcm
  obtain ⟨hfl, hshu, hrep, hchk, hth, hpli, hcf, hcfi⟩ := popPick_fields s
  set t := s.fileList.get ⟨c, hclt⟩ with htdef
  have htm : t ∈ s.fileList := List.get_mem _ _ _
  have hopen2 := openCurrentFile_ok
    { (popPick s).2 with currentFileIdx := (c : ℤ), playedIndices := some (insert c played) }
    t (by dsimp only; rw [hfl]; exact pyIndex_natCast s.fileList c hclt) (hopen t htm)
  refine ⟨{ (popPick s).2 with
              currentFileIdx := (c : ℤ), playedIndices := some (insert c played),
              currentFile := some ⟨(openedWavStereo t).samples, 44⟩,
              currentGain := computeGain (popPick s).2.targetHeadroom
                (wavMaxAbs (openedWavStereo t)) },
          c, t, ?_, hclt, hcnp, htm, rfl, rfl, hfl, hshu, hrep, hchk, hth, rfl, ?_, rfl⟩
  · unfold nextFile
    rw [hsh, if_pos rfl, hpl]
    dsimp only
    rw [if_neg (not_le.mpr hcard)]
    exact hopen2
  · show (popPick s).2.perms = s.perms
    unfold popPick
    cases s.picks <;> rfl

lemma nextFile_shuffle_drain (s : PlaySrc) (played : Finset ℕ)
    (hsh : s.shuffle = true) (hpl : s.playedIndices = some played)
    (hcard : played.card ≥ s.fileList.length) (hrep : s.repeatFlag = false) :
    nextFile s = .ok { s with playedIndices := some (∅ : Finset ℕ), currentFile := none } := by
  unfold nextFile
  rw [hsh, if_pos rfl, hpl]
  dsimp only
  rw [if_pos hcard, hrep]
  simp

lemma nextFile_shuffle_reshuffle (s : PlaySrc) (played : Finset ℕ)
    (hsh : s.shuffle = true) (hpl : s.playedIndices = some played)
    (hcard : played.card ≥ s.fileList.length) (hrep : s.repeatFlag = true)
    (hn : 0 < s.fileList.length)
    (hopen : ∀ t ∈ s.fileList, needsConversionStereo t = true → t.ffmpegExit = 0) :
    ∃ s2 c t, nextFile s = .ok s2 ∧
      c < s2.fileList.length ∧ t ∈ s.fileList ∧
      s2.currentFileIdx = (c : ℤ) ∧
      s2.playedIndices = some (insert c (∅ : Finset ℕ)) ∧
      s2.fileList.length = s.fileList.length ∧
      (∀ x ∈ s2.fileList, x ∈ s.fileList) ∧
      s2.shuffle = s.shuffle ∧
      s2.repeatFlag = s.repeatFlag ∧
      s2.chunkSize = s.chunkSize ∧
      s2.targetHeadroom = s.targetHeadroom ∧
      s2.currentFile = some ⟨(openedWavStereo t).samples, 44⟩ := by
  obtain ⟨pfl, pshu, prep, pchk, pth, ppli, pcf, pcfi, ppk⟩ := popPerm_fields s
  set sB : PlaySrc :=
    { (popPerm s).2 with fileList := applyPerm (popPerm s).1 (popPerm s).2.fileList,
                         playedIndices := some (∅ : Finset ℕ) } with hsB
  have hBlen : sB.fileList.length = s.fileList.length := by
    rw [hsB]
    dsimp only
    rw [applyPerm_length, pfl]
  have hBmem : ∀ x ∈ sB.fileList, x ∈ s.fileList := by
    intro x hx
    rw [hsB] at hx
    dsimp only at hx
    rw [← pfl]
    exact applyPerm_mem _ _ x hx
  have hne : availableIndices sB.fileList.length (∅ : Finset ℕ) ≠ [] :=
    availableIndices_ne_nil _ _ (by rw [hBlen]; simpa using hn)
  have hlen : 0 < (availableIndices sB.fileList.length (∅ : Finset ℕ)).length :=
    List.length_pos.mpr hne
  have hidx : (popPick sB).1 % (availableIndices sB.fileList.length ∅).length <
      (availableIndices sB.fileList.length ∅).length := Nat.mod_lt _ hlen
  set c := (availableIndices sB.fileList.length ∅).getD
    ((popPick sB).1 % (availableIndices sB.fileList.length ∅).length) 0 with hcdef
  have hcm : c ∈ availableIndices sB.fileList.length ∅ := by
    rw [hcdef, List.getD_eq_get _ _ hidx]
    exact List.get_mem _ _ _
  obtain ⟨hclt, _⟩ := (mem_availableIndices _ _ c).mp hcm
  obtain ⟨qfl, qshu, qrep, qchk, qth, qpli, qcf, qcfi⟩ := popPick_fields sB
  have hcltB : c < (popPick sB).2.fileList.length := by rw [qfl]; exact hclt
  set t := (popPick sB).2.fileList.get ⟨c, hcltB⟩ with htdef
  have htmB : t ∈ (popPick sB).2.fileList := List.get_mem _ _ _
  have htm : t ∈ s.fileList := by
    apply hBmem
    rw [← qfl]
    exact htmB
  have hopen2 := openCurrentFile_ok
    { (popPick sB).2 with currentFileIdx := (c : ℤ),
                          playedIndices := some (insert c (∅ : Finset ℕ)) }
    t (by dsimp only; exact pyIndex_natCast _ c hcltB) (hopen t htm)
  refine ⟨{ (popPick sB).2 with
              currentFileIdx := (c : ℤ), playedIndices := some (insert c (∅ : Finset ℕ)),
              currentFile := some ⟨(openedWavStereo t).samples, 44⟩,
              currentGain := computeGain (popPick sB).2.targetHeadroom
                (wavMaxAbs (openedWavStereo t)) },
          c, t, ?_, ?_, htm, rfl, rfl, ?_, ?_, ?_, ?_, ?_, ?_, rfl⟩
  · unfold nextFile
    rw [hsh, if_pos rfl, hpl]
    dsimp only
    rw [if_pos hcard, hrep, if_pos rfl]
    exact hopen2
  · show c < (popPick sB).2.fileList.length
    exact hcltB
  · show (popPick sB).2.fileList.length = s.fileList.length
    rw [qfl, hBlen]
  · intro x hx
    apply hBmem
    rw [← qfl]
    exact hx
  · show (popPick sB).2.shuffle = s.shuffle
    rw [qshu, hsB]
    dsimp only
    rw [pshu]
  · show (popPick sB).2.repeatFlag = s.repeatFlag
    rw [qrep, hsB]
    dsimp only
    rw [prep]
  · show (popPick sB).2.chunkSize = s.chunkSize
    rw [qchk, hsB]
    dsimp only
    rw [pchk]
  · show (popPick sB).2.targetHeadroom = s.targetHeadroom
    rw [qth, hsB]
    dsimp only
    rw [pth]

lemma exceptBind_ok {α β : Type} (a : α) (f : α → Except String β) :
    (Except.ok a : Except String α) >>= f = f a := rfl

lemma nextFileTrace_pass (m : ℕ) :
    ∀ (s : PlaySrc) (played : Finset ℕ),
    s.shuffle = true →
    s.playedIndices = some played →
    played ⊆ Finset.range s.fileList.length →
    played.card + m = s.fileList.length →
    (∀ t ∈ s.fileList, needsConversionStereo t = true → t.ffmpegExit = 0) →
    ∃ s2 tr, nextFileTrace m s = .ok (s2, tr) ∧
      tr.length = m ∧ tr.Nodup ∧
      (∀ i ∈ tr, i < s.fileList.length ∧ i ∉ played) ∧
      tr.toFinset ∪ played = Finset.range s.fileList.length ∧
      s2.playedIndices = some (played ∪ tr.toFinset) ∧
      s2.fileList = s.fileList := by
  induction m with
  | zero =>
      intro s played hsh hpl hsub hcard hopen
      refine ⟨s, [], rfl, rfl, List.nodup_nil, by simp, ?_, by simpa using hpl, rfl⟩
      have : played = Finset.range s.fileList.length :=
        Finset.eq_of_subset_of_card_le hsub (by rw [Finset.card_range]; omega)
      simpa using this
  | succ m ih =>
      intro s played hsh hpl hsub hcard hopen
      have hcardlt : played.card < s.fileList.length := by omega
      obtain ⟨s2, c, t, hnf, hclt, hcnp, htm, hidx, hpl2, hfl2, hshu2, _, _, _, _, _, _⟩ :=
        nextFile_shuffle_step s played hsh hpl hcardlt hopen
      have hsub2 : insert c played ⊆ Finset.range s2.fileList.length := by
        rw [hfl2]
        intro x hx
        rcases Finset.mem_insert.mp hx with hx | hx
        · exact hx ▸ Finset.mem_range.mpr hclt
        · exact hsub hx
      have hcard2 : (insert c played).card + m = s2.fileList.length := by
        rw [hfl2, Finset.card_insert_of_not_mem hcnp]
        omega
      have hopen2 : ∀ t2 ∈ s2.fileList, needsConversionStereo t2 = true → t2.ffmpegExit = 0 := by
        rw [hfl2]
        exact hopen
      obtain ⟨s3, tr, htr, hlen, hnd, hmem, hcover, hpl3, hfl3⟩ :=
        ih s2 (insert c played) (hshu2.trans hsh) hpl2 hsub2 hcard2 hopen2
      have hstep : nextFileTrace (m + 1) s = .ok (s3, s2.currentFileIdx.toNat :: tr) := by
        unfold nextFileTrace
        rw [hnf, exceptBind_ok, htr, exceptBind_ok]
      have hcn : s2.currentFileIdx.toNat = c := by
        rw [hidx]
        exact Int.toNat_natCast c
      rw [hcn] at hstep
      refine ⟨s3, c :: tr, hstep, by simp [hlen], ?_, ?_, ?_, ?_, hfl3.trans hfl2⟩
      · rw [List.nodup_cons]
        refine ⟨fun hc => ?_, hnd⟩
        exact absurd (Finset.mem_insert_self c played) (hmem c hc).2
      · intro i hi
        rcases List.mem_cons.mp hi with hi | hi
        · exact hi ▸ ⟨hclt, hcnp⟩
        · obtain ⟨h1, h2⟩ := hmem i hi
          rw [hfl2] at h1
          exact ⟨h1, fun hip => h2 (Finset.mem_insert_of_mem hip)⟩
      · have : (c :: tr).toFinset = insert c tr.toFinset := List.toFinset_cons
        rw [this]
        rw [Finset.insert_union, ← Finset.union_insert, hcover, hfl2]
      · rw [hpl3]
        congr 1
        rw [List.toFinset_cons, Finset.union_insert, ← Finset.insert_union]

/-- C3: in shuffle mode, `random.choice` draws from `available_indices`, which
enumerates, without duplicates, exactly the indices not yet in the played
set (so the uniform draw on that list is uniform on the unplayed indices);
each advance picks such an index and adds it to the set; the set is cleared
only once it covers the catalog, with a reshuffle under `repeat` or a drain
to no-track otherwise; consequently, one full pass from an empty played set
chooses every index exactly once before any repeat. -/
theorem shuffle_pass_each_exactly_once (s : PlaySrc) (played : Finset ℕ)
    (hsh : s.shuffle = true) (hpl : s.playedIndices = some played)
    (hn : 0 < s.fileList.length)
    (hopen : ∀ t ∈ s.fileList, needsConversionStereo t = true → t.ffmpegExit = 0) :
    ((availableIndices s.fileList.length played).Nodup ∧
      (∀ i, i ∈ availableIndices s.fileList.length played ↔
        i < s.fileList.length ∧ i ∉ played)) ∧
    (played.card < s.fileList.length →
      ∃ s2 c, nextFile s = .ok s2 ∧
        c < s.fileList.length ∧ c ∉ played ∧
        s2.currentFileIdx = (c : ℤ) ∧
        s2.playedIndices = some (insert c played) ∧
        s2.fileList = s.fileList) ∧
    (played.card ≥ s.fileList.length → s.repeatFlag = true →
      ∃ s2 c, nextFile s = .ok s2 ∧
        c < s2.fileList.length ∧
        s2.playedIndices = some (insert c (∅ : Finset ℕ)) ∧
        s2.fileList.length = s.fileList.length ∧
        (∀ x ∈ s2.fileList, x ∈ s.fileList)) ∧
    (played.card ≥ s.fileList.length → s.repeatFlag = false →
      nextFile s = .ok { s with playedIndices := some (∅ : Finset ℕ), currentFile := none }) ∧
    (played = ∅ →
      ∃ s2 tr, nextFileTrace s.fileList.length s = .ok (s2, tr) ∧
        tr.length = s.fileList.length ∧ tr.Nodup ∧
        (∀ i, i ∈ tr ↔ i < s.fileList.length) ∧
        s2.playedIndices = some (Finset.range s.fileList.length) ∧
        s2.fileList = s.fileList) := by
  refine ⟨⟨availableIndices_nodup _ played, fun i => mem_availableIndices _ played i⟩,
          ?_, ?_, ?_, ?_⟩
  · intro hcard
    obtain ⟨s2, c, t, hnf, hclt, hcnp, _, hidx, hpl2, hfl2, _⟩ :=
      nextFile_shuffle_step s played hsh hpl hcard hopen
    exact ⟨s2, c, hnf, hclt, hcnp, hidx, hpl2, hfl2⟩
  · intro hcard hrep
    obtain ⟨s2, c, t, hnf, hclt, _, _, hpl2, hlen2, hmem2, _⟩ :=
      nextFile_shuffle_reshuffle s played hsh hpl hcard hrep hn hopen
    exact ⟨s2, c, hnf, hclt, hpl2, hlen2, hmem2⟩
  · intro hcard hrep
    exact nextFile_shuffle_drain s played hsh hpl hcard hrep
  · intro hpe
    subst hpe
    obtain ⟨s2, tr, htr, hlen, hnd, hmem, hcover, hpl2, hfl2⟩ :=
      nextFileTrace_pass s.fileList.length s ∅ hsh hpl (Finset.empty_subset _)
        (by simp) hopen
    have htrF : tr.toFinset = Finset.range s.fileList.length := by
      simpa using hcover
    refine ⟨s2, tr, htr, hlen, hnd, ?_, ?_, hfl2⟩
    · intro i
      rw [← List.mem_toFinset, htrF, Finset.mem_range]
    · rw [hpl2]
      simp [htrF]

/-- C3 witness: the theorem applied to a concrete one-track shuffle source at
the start of a pass. -/
theorem shuffle_pass_each_exactly_once_witness :
    ((availableIndices srcShufFix.fileList.length ∅).Nodup ∧
      (∀ i, i ∈ availableIndices srcShufFix.fileList.length ∅ ↔
        i < srcShufFix.fileList.length ∧ i ∉ (∅ : Finset ℕ))) ∧
    ((∅ : Finset ℕ).card < srcShufFix.fileList.length →
      ∃ s2 c, nextFile srcShufFix = .ok s2 ∧
        c < srcShufFix.fileList.length ∧ c ∉ (∅ : Finset ℕ) ∧
        s2.currentFileIdx = (c : ℤ) ∧
        s2.playedIndices = some (insert c (∅ : Finset ℕ)) ∧
        s2.fileList = srcShufFix.fileList) ∧
    ((∅ : Finset ℕ).card ≥ srcShufFix.fileList.length → srcShufFix.repeatFlag = true →
      ∃ s2 c, nextFile srcShufFix = .ok s2 ∧
        c < s2.fileList.length ∧
        s2.playedIndices = some (insert c (∅ : Finset ℕ)) ∧
        s2.fileList.length = srcShufFix.fileList.length ∧
        (∀ x ∈ s2.fileList, x ∈ srcShufFix.fileList)) ∧
    ((∅ : Finset ℕ).card ≥ srcShufFix.fileList.length → srcShufFix.repeatFlag = false →
      nextFile srcShufFix =
        .ok { srcShufFix with playedIndices := some (∅ : Finset ℕ), currentFile := none }) ∧
    ((∅ : Finset ℕ) = ∅ →
      ∃ s2 tr, nextFileTrace srcShufFix.fileList.length srcShufFix = .ok (s2, tr) ∧
        tr.length = srcShufFix.fileList.length ∧ tr.Nodup ∧
        (∀ i, i ∈ tr ↔ i < srcShufFix.fileList.length) ∧
        s2.playedIndices = some (Finset.range srcShufFix.fileList.length) ∧
        s2.fileList = srcShufFix.fileList) :=
  shuffle_pass_each_exactly_once srcShufFix ∅ rfl rfl (by decide) (by decide)

lemma fileRead_fst_length (f : OpenFile) (nBytes : ℕ) :
    (fileRead f nBytes).1.length =
      min (nBytes / 2) (f.samples.length - (f.posBytes - 44) / 2) := by
  simp [fileRead]

lemma fileRead_fresh_length (f : OpenFile) (nBytes : ℕ) (h44 : f.posBytes = 44) :
    (fileRead f nBytes).1.length = min (nBytes / 2) f.samples.length := by
  rw [fileRead_fst_length, h44]
  simp

lemma evenIdx_length : ∀ l : List ℤ, (evenIdx l).length = (l.length + 1) / 2 := by
  intro l
  induction l using evenIdx.induct with
  | case1 => rfl
  | case2 a => simp [evenIdx]
  | case3 a b rest ih =>
      simp only [evenIdx, List.length_cons, ih]
      omega

lemma oddIdx_length : ∀ l : List ℤ, (oddIdx l).length = l.length / 2 := by
  intro l
  induction l using oddIdx.induct with
  | case1 => rfl
  | case2 a => simp [oddIdx]
  | case3 a b rest ih =>
      simp only [oddIdx, List.length_cons, ih]
      omega

lemma pyIndex_ok_int (l : List Track) (i : ℤ) (h0 : 0 ≤ i) (h1 : i < l.length) :
    ∃ t, pyIndex l i = .ok t ∧ t ∈ l := by
  unfold pyIndex
  rw [dif_pos ⟨h0, h1⟩]
  exact ⟨_, rfl, List.get_mem _ _ _⟩

lemma nextFile_ok (s : PlaySrc) (hg : GoodSrc s) :
    ∃ s2 f, nextFile s = .ok s2 ∧ GoodSrc s2 ∧
      s2.currentFile = some f ∧ f.posBytes = 44 ∧ 2 ≤ f.samples.length := by
  cases hsh : s.shuffle with
  | true =>
      obtain ⟨played, hpl⟩ := Option.isSome_iff_exists.mp (hg.playedSome hsh)
      have hopen : ∀ t ∈ s.fileList, needsConversionStereo t = true → t.ffmpegExit = 0 :=
        fun t ht => (hg.tracks t ht).1
      by_cases hcard : played.card < s.fileList.length
      · obtain ⟨s2, c, t, hnf, hclt, hcnp, htm, hidx, hpl2, hfl2, hshu2, hrep2, hchk2, _, _, _,
          hcf2⟩ := nextFile_shuffle_step s played hsh hpl hcard hopen
        refine ⟨s2, ⟨(openedWavStereo t).samples, 44⟩, hnf, ?_, hcf2, rfl,
          (hg.tracks t htm).2⟩
        exact { nonempty := hfl2 ▸ hg.nonempty
                tracks := hfl2 ▸ hg.tracks
                playedSome := fun _ => by rw [hpl2]; rfl
                idxGe := by rw [hidx]; omega
                rep := hrep2.trans hg.rep
                chunkPos := hchk2 ▸ hg.chunkPos }
      · obtain ⟨s2, c, t, hnf, hclt, htm, hidx, hpl2, hlen2, hmem2, hshu2, hrep2, hchk2, _,
          hcf2⟩ := nextFile_shuffle_reshuffle s played hsh hpl (by omega) hg.rep
            hg.nonempty hopen
        refine ⟨s2, ⟨(openedWavStereo t).samples, 44⟩, hnf, ?_, hcf2, rfl,
          (hg.tracks t htm).2⟩
        exact { nonempty := by rw [hlen2]; exact hg.nonempty
                tracks := fun t2 ht2 => hg.tracks t2 (hmem2 t2 ht2)
                playedSome := fun _ => by rw [hpl2]; rfl
                idxGe := by rw [hidx]; omega
                rep := hrep2.trans hg.rep
                chunkPos := hchk2 ▸ hg.chunkPos }
  | false =>
      have hidx1 : (0 : ℤ) ≤ s.currentFileIdx + 1 := by have := hg.idxGe; omega
      by_cases hwrap : s.currentFileIdx + 1 ≥ (s.fileList.length : ℤ)
      · -- wrap to 0 under repeat
        obtain ⟨t, hpy, htm⟩ := pyIndex_ok_int s.fileList 0 le_rfl
          (by exact_mod_cast hg.nonempty)
        have hop := openCurrentFile_ok { s with currentFileIdx := 0 } t hpy
          (fun h => (hg.tracks t htm).1 h)
        have hnf : nextFile s = openCurrentFile { s with currentFileIdx := 0 } := by
          unfold nextFile
          rw [hsh]
          simp only [Bool.false_eq_true, if_false]
          rw [if_pos hwrap, hg.rep, if_pos rfl]
        rw [hop] at hnf
        refine ⟨_, ⟨(openedWavStereo t).samples, 44⟩, hnf, ?_, rfl, rfl,
          (hg.tracks t htm).2⟩
        · exact { nonempty := hg.nonempty
                  tracks := hg.tracks
                  playedSome := hg.playedSome
                  idxGe := by dsimp only; omega
                  rep := hg.rep
                  chunkPos := hg.chunkPos }
      · -- plain increment
        obtain ⟨t, hpy, htm⟩ := pyIndex_ok_int s.fileList (s.currentFileIdx + 1) hidx1
          (by omega)
        have hop := openCurrentFile_ok { s with currentFileIdx := s.currentFileIdx + 1 } t hpy
          (fun h => (hg.tracks t htm).1 h)
        have hnf : nextFile s =
            openCurrentFile { s with currentFileIdx := s.currentFileIdx + 1 } := by
          unfold nextFile
          rw [hsh]
          simp only [Bool.false_eq_true, if_false]
          rw [if_neg hwrap]
        rw [hop] at hnf
        refine ⟨_, ⟨(openedWavStereo t).samples, 44⟩, hnf, ?_, rfl, rfl,
          (hg.tracks t htm).2⟩
        · exact { nonempty := hg.nonempty
                  tracks := hg.tracks
                  playedSome := hg.playedSome
                  idxGe := by dsimp only; have := hg.idxGe; omega
                  rep := hg.rep
                  chunkPos := hg.chunkPos }

lemma GoodSrc_withCurFile (sys : System) (f2 : OpenFile) (hg : GoodSrc sys.src) :
    GoodSrc (withCurFile sys f2).src :=
  { nonempty := hg.nonempty, tracks := hg.tracks, playedSome := hg.playedSome,
    idxGe := hg.idxGe, rep := hg.rep, chunkPos := hg.chunkPos }

lemma nextFileSys_ok (sys : System) (hg : GoodSrc sys.src) :
    ∃ sys2 f, nextFileSys sys = .ok sys2 ∧ GoodSrc sys2.src ∧
      sys2.ctrl = sys.ctrl ∧
      sys2.src.currentFile = some f ∧ f.posBytes = 44 ∧ 2 ≤ f.samples.length := by
  obtain ⟨s2, f, hnf, hg2, hcf, h44, hlen⟩ := nextFile_ok sys.src hg
  refine ⟨{ sys with src := s2 }, f, ?_, hg2, rfl, hcf, h44, hlen⟩
  unfold nextFileSys
  rw [hnf]
  rfl

lemma workLoop_ok (n : ℕ) (fuel : ℕ) : ∀ (sys : System) (accL accR : List ℤ),
    GoodSrc sys.src →
    pausedObserved sys = false →
    accL.length = accR.length →
    accL.length ≤ n →
    sys.src.currentFile.isSome = true →
    (2 * (n - accL.length) + 2 ≤ fuel ∨
      (2 * (n - accL.length) + 1 ≤ fuel ∧
        ∃ f, sys.src.currentFile = some f ∧ f.posBytes = 44 ∧ 2 ≤ f.samples.length)) →
    ∃ sys2 l r, workLoop fuel sys n accL accR = .ok (sys2, l, r, n) ∧
      l.length = n ∧ r.length = n := by
  induction fuel with
  | zero =>
      intro sys accL accR hg hp hlr hle hsome hfuel
      rcases hfuel with h | ⟨h, _⟩ <;> omega
  | succ fuel ih =>
      intro sys accL accR hg hp hlr hle hsome hfuel
      by_cases hlt : accL.length < n
      · obtain ⟨f, hf⟩ := Option.isSome_iff_exists.mp hsome
        rw [workLoop, if_pos hlt, hf]
        dsimp only
        rw [hp]
        simp only [Bool.false_eq_true, if_false]
        set toRead := (n - accL.length) ⊓ sys.src.chunkSize with htrd
        set rd := fileRead f (toRead * 2 * 2) with hrdd
        set sys1 := withCurFile sys rd.2 with hsys1
        have htrd1 : 1 ≤ toRead := le_min (by omega) hg.chunkPos
        have hrdlen : rd.1.length = min (toRead * 2) (f.samples.length - (f.posBytes - 44) / 2) := by
          rw [hrdd, fileRead_fst_length]
          congr 1
          omega
        have hfresh2 : f.posBytes = 44 → 2 ≤ f.samples.length → 2 ≤ rd.1.length := by
          intro h44 hfs
          rw [hrdlen, h44]
          simp only [Nat.sub_self, Nat.zero_div, Nat.sub_zero]
          omega
        have hg1 : GoodSrc sys1.src := GoodSrc_withCurFile sys rd.2 hg
        have hp1 : pausedObserved sys1 = false := hp
        by_cases hgot : rd.1.length = 0
        · rw [if_pos hgot]
          obtain ⟨sys2, f2, hnfs, hg2, hctrl, hcf2, h442, hlen2⟩ := nextFileSys_ok sys1 hg1
          rw [hnfs]
          dsimp only
          rw [hcf2]
          have hp2 : pausedObserved sys2 = false := by
            unfold pausedObserved
            rw [hctrl]
            exact hp
          apply ih sys2 accL accR hg2 hp2 hlr hle (by rw [hcf2]; rfl)
          right
          refine ⟨?_, f2, hcf2, h442, hlen2⟩
          rcases hfuel with hb | ⟨hb, f3, hf3, h443, hlen3⟩
          · omega
          · rw [hf] at hf3
            injection hf3 with hf3
            subst hf3
            have := hfresh2 h443 hlen3
            omega
        · rw [if_neg hgot]
          set samples := if rd.1.length % 2 ≠ 0 then rd.1.dropLast else rd.1 with hsamp
          have hsamp_even : samples.length % 2 = 0 := by
            rw [hsamp]
            split
            · rw [List.length_dropLast]
              omega
            · omega
          have hsamp_le : samples.length ≤ rd.1.length := by
            rw [hsamp]
            split
            · rw [List.length_dropLast]
              omega
            · omega
          have hsamp_ge : rd.1.length - 1 ≤ samples.length := by
            rw [hsamp]
            split
            · rw [List.length_dropLast]
            · omega
          have hfc_le : samples.length / 2 ≤ toRead := by
            have h1 : rd.1.length ≤ toRead * 2 := hrdlen ▸ min_le_left _ _
            omega
          set ints := List.map (gainTransform sys1.src.currentGain) samples with hints
          have hintsLen : ints.length = samples.length := by
            rw [hints, List.length_map]
          have heqL : (accL ++ evenIdx ints).length = accL.length + samples.length / 2 := by
            rw [List.length_append, evenIdx_length, hintsLen]
            omega
          have heqR : (accR ++ oddIdx ints).length = accR.length + samples.length / 2 := by
            rw [List.length_append, oddIdx_length, hintsLen]
          have hle2 : (accL ++ evenIdx ints).length ≤ n := by
            rw [heqL]
            have : toRead ≤ n - accL.length := min_le_left _ _
            omega
          have hlr2 : (accL ++ evenIdx ints).length = (accR ++ oddIdx ints).length := by
            rw [heqL, heqR, hlr]
          by_cases hpart : samples.length / 2 < toRead
          · rw [if_pos hpart]
            obtain ⟨sys2, f2, hnfs, hg2, hctrl, hcf2, h442, hlen2⟩ := nextFileSys_ok sys1 hg1
            rw [hnfs]
            dsimp only
            rw [hcf2]
            have hp2 : pausedObserved sys2 = false := by
              unfold pausedObserved
              rw [hctrl]
              exact hp
            apply ih sys2 _ _ hg2 hp2 hlr2 hle2 (by rw [hcf2]; rfl)
            right
            refine ⟨?_, f2, hcf2, h442, hlen2⟩
            rw [heqL]
            rcases hfuel with hb | ⟨hb, f3, hf3, h443, hlen3⟩
            · omega
            · rw [hf] at hf3
              injection hf3 with hf3
              subst hf3
              have h2r := hfresh2 h443 hlen3
              have hfc1 : 1 ≤ samples.length / 2 := by omega
              omega
          · rw [if_neg hpart]
            apply ih sys1 _ _ hg1 hp1 hlr2 hle2 (by rw [hsys1]; rfl)
            left
            rw [heqL]
            have hfc1 : toRead ≤ samples.length / 2 := by omega
            rcases hfuel with hb | ⟨hb, _⟩ <;> omega
      · have heq : accL.length = n := by omega
        rw [workLoop, if_neg hlt]
        exact ⟨sys, accL, accR, by rw [heq], heq, by omega⟩

lemma resolveMono_ok (t : Track)
    (hok : needsConversionMono t = true → t.ffmpegExit = 0) :
    resolveMono t = .ok (openedWavMono t) := by
  unfold resolveMono openedWavMono
  cases hnc : needsConversionMono t with
  | true => simp [hok hnc]
  | false => simp

lemma openCurrentFileMono_ok (s : MonoSrc) (t : Track)
    (hpy : pyIndex s.fileList s.currentFileIdx = .ok t)
    (hok : needsConversionMono t = true → t.ffmpegExit = 0) :
    openCurrentFileMono s =
      .ok { s with currentFile := some ⟨(openedWavMono t).samples, 44⟩,
                   currentGain := computeGain s.targetHeadroom (wavMaxAbs (openedWavMono t)) } := by
  unfold openCurrentFileMono
  rw [hpy]
  show (resolveMono t).bind _ = _
  rw [resolveMono_ok t hok]
  rfl

lemma nextFileMono_ok (s : MonoSrc) (hg : GoodMono s) :
    ∃ s2 f, nextFileMono s = .ok s2 ∧ GoodMono s2 ∧
      s2.currentFile = some f ∧ f.posBytes = 44 ∧ 1 ≤ f.samples.length := by
  have hidx1 : (0 : ℤ) ≤ s.currentFileIdx + 1 := by have := hg.idxGe; omega
  by_cases hwrap : s.currentFileIdx + 1 ≥ (s.fileList.length : ℤ)
  · obtain ⟨t, hpy, htm⟩ := pyIndex_ok_int s.fileList 0 le_rfl
      (by exact_mod_cast hg.nonempty)
    have hop := openCurrentFileMono_ok { s with currentFileIdx := 0 } t hpy
      (fun h => (hg.tracks t htm).1 h)
    have hnf : nextFileMono s = openCurrentFileMono { s with currentFileIdx := 0 } := by
      unfold nextFileMono
      rw [if_pos hwrap, hg.rep, if_pos rfl]
    rw [hop] at hnf
    refine ⟨_, ⟨(openedWavMono t).samples, 44⟩, hnf, ?_, rfl, rfl, (hg.tracks t htm).2⟩
    exact { nonempty := hg.nonempty
            tracks := hg.tracks
            idxGe := by dsimp only; omega
            rep := hg.rep
            chunkPos := hg.chunkPos }
  · obtain ⟨t, hpy, htm⟩ := pyIndex_ok_int s.fileList (s.currentFileIdx + 1) hidx1 (by omega)
    have hop := openCurrentFileMono_ok { s with currentFileIdx := s.currentFileIdx + 1 } t hpy
      (fun h => (hg.tracks t htm).1 h)
    have hnf : nextFileMono s =
        openCurrentFileMono { s with currentFileIdx := s.currentFileIdx + 1 } := by
      unfold nextFileMono
      rw [if_neg hwrap]
    rw [hop] at hnf
    refine ⟨_, ⟨(openedWavMono t).samples, 44⟩, hnf, ?_, rfl, rfl, (hg.tracks t htm).2⟩
    exact { nonempty := hg.nonempty
            tracks := hg.tracks
            idxGe := by dsimp only; have := hg.idxGe; omega
            rep := hg.rep
            chunkPos := hg.chunkPos }

lemma workLoopMono_ok (n : ℕ) (fuel : ℕ) : ∀ (s : MonoSrc) (acc : List ℤ),
    GoodMono s →
    acc.length ≤ n →
    s.currentFile.isSome = true →
    (2 * (n - acc.length) + 2 ≤ fuel ∨
      (2 * (n - acc.length) + 1 ≤ fuel ∧
        ∃ f, s.currentFile = some f ∧ f.posBytes = 44 ∧ 1 ≤ f.samples.length)) →
    ∃ s2 out, workLoopMono fuel s n acc = .ok (s2, out, n) ∧ out.length = n := by
  induction fuel with
  | zero =>
      intro s acc hg hle hsome hfuel
      rcases hfuel with h | ⟨h, _⟩ <;> omega
  | succ fuel ih =>
      intro s acc hg hle hsome hfuel
      by_cases hlt : acc.length < n
      · obtain ⟨f, hf⟩ := Option.isSome_iff_exists.mp hsome
        rw [workLoopMono, if_pos hlt, hf]
        dsimp only
        set toRead := (n - acc.length) ⊓ s.chunkSize with htrd
        set rd := fileRead f (toRead * 2) with hrdd
        have htrd1 : 1 ≤ toRead := le_min (by omega) hg.chunkPos
        have hrdlen : rd.1.length = min toRead (f.samples.length - (f.posBytes - 44) / 2) := by
          rw [hrdd, fileRead_fst_length]
          congr 1
          omega
        have hfresh1 : f.posBytes = 44 → 1 ≤ f.samples.length → 1 ≤ rd.1.length := by
          intro h44 hfs
          rw [hrdlen, h44]
          simp only [Nat.sub_self, Nat.zero_div, Nat.sub_zero]
          omega
        have hg1 : GoodMono { s with currentFile := some rd.2 } :=
          { nonempty := hg.nonempty, tracks := hg.tracks, idxGe := hg.idxGe,
            rep := hg.rep, chunkPos := hg.chunkPos }
        by_cases hgot : rd.1.length = 0
        · rw [if_pos hgot]
          obtain ⟨s2, f2, hnf, hg2, hcf2, h442, hlen2⟩ :=
            nextFileMono_ok { s with currentFile := some rd.2 } hg1
          rw [hnf]
          dsimp only
          rw [hcf2]
          apply ih s2 acc hg2 hle (by rw [hcf2]; rfl)
          right
          refine ⟨?_, f2, hcf2, h442, hlen2⟩
          rcases hfuel with hb | ⟨hb, f3, hf3, h443, hlen3⟩
          · omega
          · rw [hf] at hf3
            injection hf3 with hf3
            subst hf3
            have := hfresh1 h443 hlen3
            omega
        · rw [if_neg hgot]
          set ints := List.map (gainTransform s.currentGain) rd.1 with hints
          have hintsLen : ints.length = rd.1.length := by
            rw [hints, List.length_map]
          have heqL : (acc ++ ints).length = acc.length + rd.1.length := by
            rw [List.length_append, hintsLen]
          have hrd_le : rd.1.length ≤ toRead := hrdlen ▸ min_le_left _ _
          have hle2 : (acc ++ ints).length ≤ n := by
            rw [heqL]
            have : toRead ≤ n - acc.length := min_le_left _ _
            omega
          by_cases hpart : rd.1.length < toRead
          · rw [if_pos hpart]
            obtain ⟨s2, f2, hnf, hg2, hcf2, h442, hlen2⟩ :=
              nextFileMono_ok { s with currentFile := some rd.2 } hg1
            rw [hnf]
            dsimp only
            rw [hcf2]
            apply ih s2 _ hg2 hle2 (by rw [hcf2]; rfl)
            right
            refine ⟨?_, f2, hcf2, h442, hlen2⟩
            rw [heqL]
            rcases hfuel with hb | ⟨hb, _⟩ <;> omega
          · rw [if_neg hpart]
            apply ih { s with currentFile := some rd.2 } _ hg1 hle2 rfl
            left
            rw [heqL]
            rcases hfuel with hb | ⟨hb, _⟩ <;> omega
      · have heq : acc.length = n := by omega
        rw [workLoopMono, if_neg hlt]
        exact ⟨s, acc, by rw [heq], heq⟩

lemma workStereo_drained (sys : System) (fuel n : ℕ)
    (hf : sys.src.currentFile = none) (h1 : 1 ≤ fuel) :
    workStereo fuel sys n = .ok (sys, List.replicate n 0, List.replicate n 0, 0) := by
  obtain ⟨m, rfl⟩ : ∃ m, fuel = m + 1 := ⟨fuel - 1, by omega⟩
  unfold workStereo
  rw [workLoop]
  by_cases hn : 0 < n
  · simp only [List.length_nil, hn, if_true]
    rw [hf]
    simp [padZeros]
  · have hz : n = 0 := by omega
    subst hz
    simp [padZeros]

lemma workMono_drained (s : MonoSrc) (fuel n : ℕ)
    (hf : s.currentFile = none) (h1 : 1 ≤ fuel) :
    workMono fuel s n = .ok (s, List.replicate n 0, 0) := by
  obtain ⟨m, rfl⟩ : ∃ m, fuel = m + 1 := ⟨fuel - 1, by omega⟩
  unfold workMono
  rw [workLoopMono]
  by_cases hn : 0 < n
  · simp only [List.length_nil, hn, if_true]
    rw [hf]
    simp [padZeros]
  · have hz : n = 0 := by omega
    subst hz
    simp [padZeros]

/-- C1 (amended): with the playback not paused, well-formed state and
`repeat=True`, a single `work` call returns exactly `n` frames, advancing
through as many tracks as needed within the call (stereo: `n` left and `n`
right samples; mono likewise with `n` samples); a drained stream
(`current_file is None`, non-repeating exhaustion) returns count 0 with the
whole buffer zero-filled. A short return also happens while paused (see the
counterexample), not only at permanent stream end. -/
theorem work_returns_full_buffer_amended
    (sys : System) (s : MonoSrc) (n fuel : ℕ)
    (hg : GoodSrc sys.src) (hp : pausedObserved sys = false)
    (hgm : GoodMono s) (hfuel : 2 * n + 2 ≤ fuel) :
    (sys.src.currentFile.isSome = true →
      ∃ sys2 l r, workStereo fuel sys n = .ok (sys2, l, r, n) ∧
        l.length = n ∧ r.length = n) ∧
    (∀ sysD : System, sysD.src.currentFile = none →
      workStereo fuel sysD n = .ok (sysD, List.replicate n 0, List.replicate n 0, 0)) ∧
    (s.currentFile.isSome = true →
      ∃ s2 out, workMono fuel s n = .ok (s2, out, n) ∧ out.length = n) ∧
    (∀ sD : MonoSrc, sD.currentFile = none →
      workMono fuel sD n = .ok (sD, List.replicate n 0, 0)) := by
  refine ⟨?_, ?_, ?_, ?_⟩
  · intro hsome
    exact workLoop_ok n fuel sys [] [] hg hp rfl (Nat.zero_le n) hsome
      (Or.inl (by simpa using hfuel))
  · intro sysD hD
    exact workStereo_drained sysD fuel n hD (by omega)
  · intro hsome
    exact workLoopMono_ok n fuel s [] hgm (Nat.zero_le n) hsome
      (Or.inl (by simpa using hfuel))
  · intro sD hD
    exact workMono_drained sD fuel n hD (by omega)

/-- C1 witness: the amended theorem applied to concrete single-track stereo
and mono sources with buffers of 3 frames. -/
theorem work_returns_full_buffer_amended_witness :
    (sysFix.src.currentFile.isSome = true →
      ∃ sys2 l r, workStereo 8 sysFix 3 = .ok (sys2, l, r, 3) ∧
        l.length = 3 ∧ r.length = 3) ∧
    (∀ sysD : System, sysD.src.currentFile = none →
      workStereo 8 sysD 3 = .ok (sysD, List.replicate 3 0, List.replicate 3 0, 0)) ∧
    (monoFix.currentFile.isSome = true →
      ∃ s2 out, workMono 8 monoFix 3 = .ok (s2, out, 3) ∧ out.length = 3) ∧
    (∀ sD : MonoSrc, sD.currentFile = none →
      workMono 8 sD 3 = .ok (sD, List.replicate 3 0, 0)) :=
  work_returns_full_buffer_amended sysFix monoFix 3 8
    { nonempty := by decide
      tracks := by decide
      playedSome := by decide
      idxGe := by decide
      rep := rfl
      chunkPos := by decide }
    rfl
    { nonempty := by decide
      tracks := by decide
      idxGe := by decide
      rep := rfl
      chunkPos := by decide }
    (by decide)

/-- C1 counterexample: a paused stereo system with an open track and
`repeat=True` (so the playlist is in no sense exhausted) returns count 0 on
a 4-frame request -- a short return away from permanent stream end, refuting
the claim that a count below `n_frames` occurs only there. -/
theorem work_paused_short_return_counterexample :
    (∃ c, sysPausedFix.ctrl = some c ∧ c.paused = true) ∧
    sysPausedFix.src.currentFile ≠ none ∧
    sysPausedFix.src.repeatFlag = true ∧
    workStereo 10 sysPausedFix 4 =
      .ok (sysPausedFix, List.replicate 4 0, List.replicate 4 0, 0) ∧
    (0 : ℕ) ≠ 4 := by
  refine ⟨⟨{ ctrlFix with paused := true }, rfl, rfl⟩, by decide, rfl, ?_, by decide⟩
  exact workStereo_paused sysPausedFix { ctrlFix with paused := true } 10 4 rfl rfl (by decide)
